import Mathlib

/-!
# Verification of the gobusybox source-to-source transformation

A shallow embedding, in Lean 4, of the parts of `u-root/gobusybox` that the
specification's claims are about:

* the name arbiter (`Package.newFunctionName`, `Package.newImportName`,
  `Package.nextInit` in `src/pkg/bb/bb.go`),
* the AST rewriter (`Package.rewriteFile`, `Package.Rewrite`),
* the duplicate-command check (`checkDuplicate`, `BuildBusybox`),
* the module reconciler (`localModules`, `dealWithDeps`),
* the pattern resolver (`findpkg.ResolveGlobs` and its helpers),
* the runtime dispatcher (`bbmain/cmd/main.go`: `run`, `init`) and the
  command registry (`bbmain.Register`).

Go strings are Lean `String`s, Go slices are Lean `List`s, Go maps are
association lists with first-match lookup (insertion prepends, which gives
Go's overwrite semantics), and external subprocesses (`go list`) and the
file system are oracle parameters.
-/

namespace GoBusybox

/-! ## Decimal rendering of integers

`fmt.Sprintf("%s%d", name, i)` renders `i` in decimal.  We give an explicit
decimal renderer and prove it injective (needed to show the name arbiter's
search always terminates at a fresh name: the candidate names are pairwise
distinct, and the set of taken names is finite). -/

/-- The character for a single decimal digit. -/
def digitCh (d : Nat) : Char := Char.ofNat (48 + d)

/-- Decimal digit characters, most significant first, on explicit fuel so
that the recursion is structural (`n / 10 < n` keeps it within fuel). -/
def decCharsAux : Nat → Nat → List Char
  | _, 0 => []
  | 0, _ + 1 => []
  | fuel + 1, n + 1 => decCharsAux fuel ((n + 1) / 10) ++ [digitCh ((n + 1) % 10)]

/-- Decimal digit characters of `n`, most significant first; `[]` for `n = 0`.
This is the digit string `%d` produces, up to the `n = 0` special case. -/
def decChars (n : Nat) : List Char := decCharsAux n n

/-- Decimal rendering of a natural number, as `%d` prints it. -/
def decStr (n : Nat) : String :=
  if n = 0 then "0" else ⟨decChars n⟩

/-- Reading a digit string back as a number (base-10 Horner evaluation). -/
def decVal (l : List Char) : Nat :=
  l.foldl (fun a c => a * 10 + (c.toNat - 48)) 0

theorem decVal_append_singleton (l : List Char) (c : Char) :
    decVal (l ++ [c]) = decVal l * 10 + (c.toNat - 48) := by
  simp [decVal, List.foldl_append]

theorem digitCh_toNat (d : Nat) (h : d < 10) : (digitCh d).toNat = 48 + d := by
  interval_cases d <;> decide

theorem decVal_decCharsAux : ∀ (fuel n : Nat), n ≤ fuel →
    decVal (decCharsAux fuel n) = n := by
  intro fuel
  induction fuel with
  | zero =>
    intro n hn
    have : n = 0 := by omega
    subst this
    simp [decCharsAux, decVal]
  | succ fuel ih =>
    intro n hn
    match n with
    | 0 => simp [decCharsAux, decVal]
    | m + 1 =>
      rw [decCharsAux]
      rw [decVal_append_singleton]
      have hdiv : (m + 1) / 10 ≤ fuel := by
        have := Nat.div_lt_self (Nat.succ_pos m) (show 1 < 10 by omega)
        omega
      rw [ih _ hdiv]
      rw [digitCh_toNat _ (Nat.mod_lt _ (by omega))]
      omega

theorem decVal_decChars (n : Nat) : decVal (decChars n) = n :=
  decVal_decCharsAux n n (Nat.le_refl n)

theorem decChars_injective : Function.Injective decChars := by
  intro a b h
  have := decVal_decChars a
  rw [h, decVal_decChars] at this
  omega

theorem decChars_ne_nil {n : Nat} (h : n ≠ 0) : decChars n ≠ [] := by
  match n with
  | m + 1 =>
    rw [decChars, decCharsAux]
    simp

theorem decStr_injective : Function.Injective decStr := by
  intro a b h
  by_cases ha : a = 0 <;> by_cases hb : b = 0
  · omega
  · exfalso
    rw [decStr, decStr, if_pos ha, if_neg hb] at h
    have : decVal (decChars b) = b := decVal_decChars b
    have hd : ("0" : String).data = decChars b := congrArg String.data h
    rw [show ("0" : String).data = [Char.ofNat 48] from rfl] at hd
    rw [← hd] at this
    simp [decVal] at this
    omega
  · exfalso
    rw [decStr, decStr, if_neg ha, if_pos hb] at h
    have : decVal (decChars a) = a := decVal_decChars a
    have hd : decChars a = ("0" : String).data := congrArg String.data h
    rw [show ("0" : String).data = [Char.ofNat 48] from rfl] at hd
    rw [hd] at this
    simp [decVal] at this
    omega
  · rw [decStr, decStr, if_neg ha, if_neg hb] at h
    exact decChars_injective (congrArg String.data h)

theorem decStr_ne_empty (n : Nat) : decStr n ≠ "" := by
  intro h
  rw [decStr] at h
  by_cases hn : n = 0
  · rw [if_pos hn] at h; exact absurd (congrArg String.data h) (by decide)
  · rw [if_neg hn] at h
    exact decChars_ne_nil hn (congrArg String.data h)

/-! ## `filepath.Base`

The dispatcher and `checkDuplicate` take the base name of a path
(`filepath.Base` / `path.Base`): the last non-empty slash-separated
component; `"."` for the empty string; `"/"` when the path is all slashes. -/

/-- Split a character list at `/`, keeping empty components
(`strings.Split(s, "/")` at the character level). -/
def splitSlash : List Char → List (List Char)
  | [] => [[]]
  | c :: rest =>
    match splitSlash rest with
    | [] => [[]]
    | h :: t => if c = '/' then [] :: h :: t else (c :: h) :: t

/-- The slash-separated components of a path, as strings. -/
def pathComponents (p : String) : List String :=
  (splitSlash p.data).map fun l => ⟨l⟩

/-- `filepath.Base` / `path.Base` on slash-separated paths. -/
def baseName (p : String) : String :=
  if p.data.isEmpty then "."
  else
    match ((splitSlash p.data).filter (fun c => ¬ c.isEmpty)).getLast? with
    | some c => ⟨c⟩
    | none => "/"

example : baseName "./bb" = "bb" := by decide
example : baseName "/usr/bin/ls" = "ls" := by decide
example : baseName "mod5/cmd/hello" = "hello" := by decide
example : baseName "foo" = "foo" := by decide
example : baseName "" = "." := by decide
example : baseName "//" = "/" := by decide

/-- Association-list lookup across an append: first list wins. -/
theorem lookup_append {α β : Type} [BEq α] (l₁ l₂ : List (α × β)) (k : α) :
    (l₁ ++ l₂).lookup k = ((l₁.lookup k).or (l₂.lookup k)) := by
  induction l₁ with
  | nil => simp [List.lookup]
  | cons h t ih =>
    match h with
    | (a, b) =>
      simp only [List.cons_append, List.lookup]
      cases hk : k == a
      · simpa [hk] using ih
      · simp [hk]


/-! ## The command registry (`bbmain`)

`src/pkg/bb/bbmain`: a process-wide table `bbCmds` mapping a command name
to its `init` and `main` functions, plus an optional default command.  The
functions themselves are opaque at this level; we record them by identity. -/

namespace bbmain

/-- A registered command: the pair of `init` and `main` functions, recorded
by identity (functions are only ever stored and called, never inspected). -/
structure BBCmd where
  initId : Nat
  mainId : Nat
deriving DecidableEq, Repr

/-- `bbCmds`, the registry: an association list keyed by command name.
`Register` appends, and lookups take the first match, which agrees with the
Go map because `Register` refuses duplicate keys. -/
abbrev Registry := List (String × BBCmd)

/-- `bbmain.Register`.  Panics (modelled as `.error` with the panic message)
when `name` is already registered; otherwise stores the command. -/
def Register (name : String) (cmd : BBCmd) (reg : Registry) : Except String Registry :=
  if (reg.lookup name).isSome then
    .error ("cannot register two commands with name " ++ name)
  else
    .ok (reg ++ [(name, cmd)])

end bbmain

/-! ## The dispatcher (`bbmain/cmd/main.go`)

`run()` looks up `filepath.Base(os.Args[0])` via `bbmain.Run`.  `Run` falls
back on the default command when the name is not registered; it returns
`ErrNotRegistered` only when there is no default.  The default command's
`main` (installed by `init()`) shifts `os.Args` by one and calls `run()`
again.  `init()` also registers `bbdiagnose`. -/

/-- What `bbmain.Run(name)` decides to do: run a registered command, run the
default command, or fail with `ErrNotRegistered`. -/
inductive RunRes where
  | ranCmd (name : String)
  | runDefault
  | errNotRegistered
deriving DecidableEq, Repr

/-- The lookup logic of `bbmain.Run` (register.go): the registry first, then
the default command, then `ErrNotRegistered`. -/
def RunLookup (reg : List String) (hasDefault : Bool) (name : String) : RunRes :=
  if reg.contains name then .ranCmd name
  else if hasDefault then .runDefault
  else .errNotRegistered

/-- Observable outcome of one invocation of the dispatcher. -/
inductive Outcome where
  /-- A registered command `name` ran (its init, then its main), with
  `os.Args = argv` at that point; the process then exits 0. -/
  | ran (name : String) (argv : List String)
  /-- The default command's `main` hit `len(os.Args) == 1` and called
  `log.Fatalf("Invalid busybox command: %q", os.Args)`: a non-zero exit
  that does NOT list the registered commands. -/
  | fatalInvalid (argv : List String)
  /-- `run()`'s `ErrNotRegistered` fallback: logs the failure, prints
  "Supported commands are:" followed by every registered name, `os.Exit(1)`. -/
  | notFoundDiag (cmds : List String)
  /-- `os.Args` was empty (cannot happen in a real invocation). -/
  | emptyArgv
deriving DecidableEq, Repr

/-- `run()` from `bbmain/cmd/main.go`, with `bbmain.Run`'s branch structure
(registry lookup, then default command, then `ErrNotRegistered`) inlined,
together with the default command's `main` closure `m` from `init()` (which
shifts `os.Args` by one and re-enters `run()`).  The recursion through `m`
strictly shrinks `os.Args`.  In the `ErrNotRegistered` retry branch the
default command is necessarily absent (`Run` only returns
`ErrNotRegistered` when `defaultCmd == nil`), so the retry lookup's default
branch — dead code in the source — is elided. -/
def runDispatcher (reg : List String) (hasDefault : Bool) : List String → Outcome
  | [] => .emptyArgv
  | [a] =>
    if reg.contains (baseName a) then .ran (baseName a) [a]
    else if hasDefault then .fatalInvalid [a]
    else .notFoundDiag reg
  | a :: b :: rest =>
    if reg.contains (baseName a) then .ran (baseName a) (a :: b :: rest)
    else if hasDefault then runDispatcher reg hasDefault (b :: rest)
    else if reg.contains (baseName b) then .ran (baseName b) (b :: rest)
    else .notFoundDiag reg

/-- `runDispatcher`'s lookup steps agree with `RunLookup`, the decision
function of `bbmain.Run`. -/
theorem runLookup_cases (reg : List String) (hasDefault : Bool) (name : String) :
    (reg.contains name = true → RunLookup reg hasDefault name = .ranCmd name) ∧
    (reg.contains name = false → hasDefault = true → RunLookup reg hasDefault name = .runDefault) ∧
    (reg.contains name = false → hasDefault = false → RunLookup reg hasDefault name = .errNotRegistered) := by
  refine ⟨fun h => ?_, fun h hd => ?_, fun h hd => ?_⟩
  · rw [RunLookup, if_pos h]
  · rw [RunLookup, if_neg (by simpa using h), if_pos hd]
  · rw [RunLookup, if_neg (by simpa using h), if_neg (by simp [hd])]

/-- The registry contents established by `init()` in `bbmain/cmd/main.go`:
`bbdiagnose` is registered, and a default command is installed via
`RegisterDefault`. -/
def initRegistry : List String := ["bbdiagnose"]

/-- `init()` always calls `bbmain.RegisterDefault`, so the shipped
dispatcher binary runs with a default command present. -/
def initHasDefault : Bool := true


/-! ## The rewriter's data model

`go/ast` and `go/types` data at the granularity `Package.rewriteFile` and
`Package.Rewrite` inspect it.  An expression is identified by the identity
of its AST node (the rewriter keys `initAssigns` on the pointer identity of
the right-hand `ast.Expr`), so expressions are opaque ids here. -/

/-- Identity of a Go AST expression node. -/
abbrev GoExpr := Nat

/-- The statements the rewriter constructs or moves:
assignments (`name = rhs`), plain calls (`f()`), and the self-registration
call `alias.Register("name", initFn, mainFn)`. -/
inductive GoStmt where
  | assign (lhs : String) (rhs : GoExpr)
  | call (fn : String)
  | registerCall (aliasName : String) (cmdName : String) (initFn : String) (mainFn : String)
deriving DecidableEq, Repr

/-- One `var` spec: `names = values` (`values = []` models `s.Values == nil`,
a declaration without initialiser). -/
structure VarSpec where
  names : List String
  values : List GoExpr
deriving DecidableEq, Repr

/-- Top-level declarations, at the granularity `rewriteFile` switches on:
`var` blocks (GenDecl with `token.VAR`), function declarations (receiver
flag and name, with the body statements we track), and everything else. -/
inductive GoDecl where
  | varDecl (specs : List VarSpec)
  | funcDecl (hasRecv : Bool) (name : String) (body : List GoStmt)
  | otherDecl
deriving DecidableEq, Repr

/-- One source file: its package-clause name (`f.Name.Name`), its file
scope from the type checker (`p.Pkg.TypesInfo.Scopes[f]`: the import names
visible in this file), its import table (alias, import path), and its
top-level declarations. -/
structure GoFile where
  pkgName : String
  scope : List String
  imports : List (String × String)
  decls : List GoDecl
deriving DecidableEq, Repr

/-- The static, type-checked package data (`packages.Package`): import
path, the package scope (`p.Pkg.Types.Scope()`: every package-level
variable, constant, function and type name), the source files in the order
`p.Pkg.Syntax` holds them (lexicographic by file name), and
`TypesInfo.InitOrder` as a list of (left-hand names, right-hand
expression). -/
structure GoPkg where
  pkgPath : String
  typesScope : List String
  srcFiles : List GoFile
  initOrder : List (List String × GoExpr)
deriving DecidableEq, Repr

/-! ## The name arbiter

`Package.funcNameTaken`, `Package.pkgImportNameTaken`,
`Package.newFunctionName`, `Package.newImportName`, `Package.nextInit`
(`src/pkg/bb/bb.go`).  The two search loops walk the candidate sequence
`P, P0, P1, …` (`fmt.Sprintf("%s%d", name, i)`), and `busyboxInit0,
busyboxInit1, …` respectively.  The Go loops are `for taken(...)` loops; we
run them on enough fuel and prove that the fuel always suffices (the taken
names are finitely many and the candidates pairwise distinct). -/

/-- `Package.funcNameTaken`: a candidate package-level function name
conflicts with the package scope or the file scope (imports) of any file. -/
def funcNameTaken (g : GoPkg) (name : String) : Bool :=
  g.typesScope.contains name || g.srcFiles.any (fun f => f.scope.contains name)

/-- `Package.pkgImportNameTaken`: a candidate import alias for file `f`
conflicts with the package scope or with `f`'s own file scope only
("Imports in other files have no effect."). -/
def pkgImportNameTaken (g : GoPkg) (name : String) (f : GoFile) : Bool :=
  g.typesScope.contains name || f.scope.contains name

/-- The candidate sequence of `newFunctionName`/`newImportName`:
`P`, then `P0`, `P1`, … . -/
def seqName (name : String) : Nat → String
  | 0 => name
  | k + 1 => name ++ decStr k

/-- The candidate sequence of `nextInit`: `busyboxInit<c>`. -/
def initCand (c : Nat) : String := "busyboxInit" ++ decStr c

/-- The shared search loop: starting at candidate index `k`, return the
first index whose candidate is not taken (returning `k + fuel` if fuel runs
out, which the fuel lemmas below rule out). -/
def scanFree (cand : Nat → String) (taken : String → Bool) : Nat → Nat → Nat
  | 0, k => k
  | fuel + 1, k => if taken (cand k) then scanFree cand taken fuel (k + 1) else k

/-- Every name that can make `funcNameTaken` true. -/
def allNames (g : GoPkg) : List String :=
  g.typesScope ++ (g.srcFiles.map GoFile.scope).flatten

/-- Fuel that always suffices for the package-scope search. -/
def funcNameFuel (g : GoPkg) : Nat := (allNames g).length + 1

/-- `Package.newFunctionName(name)`: first name of `name, name0, name1, …`
with `funcNameTaken` false. -/
def newFunctionName (g : GoPkg) (name : String) : String :=
  seqName name (scanFree (seqName name) (funcNameTaken g) (funcNameFuel g) 0)

/-- Fuel that always suffices for the per-file import-alias search. -/
def importNameFuel (g : GoPkg) (f : GoFile) : Nat :=
  (g.typesScope ++ f.scope).length + 1

/-- `Package.newImportName(name, f)`: first name of `name, name0, name1, …`
with `pkgImportNameTaken` false for file `f`. -/
def newImportName (g : GoPkg) (name : String) (f : GoFile) : String :=
  seqName name (scanFree (seqName name) (fun s => pkgImportNameTaken g s f)
    (importNameFuel g f) 0)

/-! ### Correctness of the search loops -/

theorem data_append (a b : String) : (a ++ b).data = a.data ++ b.data := by
  cases a; cases b; rfl

theorem append_left_cancel {s a b : String} (h : s ++ a = s ++ b) : a = b := by
  have hd := congrArg String.data h
  rw [data_append, data_append] at hd
  exact String.ext (List.append_cancel_left hd)

theorem append_ne_self {s a : String} (h : a ≠ "") : s ++ a ≠ s := by
  intro hEq
  apply h
  have hd := congrArg String.data hEq
  rw [data_append] at hd
  have : s.data ++ a.data = s.data ++ [] := by simpa using hd
  exact String.ext (List.append_cancel_left this)

theorem seqName_injective (name : String) :
    ∀ i j, seqName name i = seqName name j → i = j := by
  intro i j h
  match i, j with
  | 0, 0 => rfl
  | 0, k + 1 =>
    exact absurd h.symm (append_ne_self (decStr_ne_empty k))
  | k + 1, 0 =>
    exact absurd h (append_ne_self (decStr_ne_empty k))
  | k + 1, l + 1 =>
    rw [seqName, seqName] at h
    rw [decStr_injective (append_left_cancel h)]

theorem initCand_injective : ∀ i j, initCand i = initCand j → i = j := by
  intro i j h
  rw [initCand, initCand] at h
  exact decStr_injective (append_left_cancel h)

/-- Pigeonhole: among `|L| + 1` distinct candidates starting at index `k`,
one is outside the finite list `L`. -/
theorem exists_cand_not_mem (L : List String) (cand : Nat → String)
    (hinj : ∀ i j, cand i = cand j → i = j) (k : Nat) :
    ∃ j, k ≤ j ∧ j < k + (L.length + 1) ∧ cand j ∉ L := by
  by_contra hno
  push_neg at hno
  have hall : ∀ i < L.length + 1, cand (k + i) ∈ L := by
    intro i hi
    exact hno (k + i) (Nat.le_add_right k i) (by omega)
  let cl : List String := (List.range (L.length + 1)).map (fun i => cand (k + i))
  have hnodup : cl.Nodup := by
    apply List.Nodup.map
    · intro i j hij
      have := hinj _ _ hij
      omega
    · exact List.nodup_range _
  have hsub : cl.toFinset ⊆ L.toFinset := by
    intro x hx
    rw [List.mem_toFinset] at hx ⊢
    rcases List.mem_map.mp hx with ⟨i, hi, hxi⟩
    rw [List.mem_range] at hi
    exact hxi ▸ hall i hi
  have hcard1 : cl.toFinset.card = L.length + 1 := by
    rw [List.toFinset_card_of_nodup hnodup]
    simp [cl]
  have hcard2 : L.toFinset.card ≤ L.length := L.toFinset_card_le
  have := Finset.card_le_card hsub
  omega

/-- What the loop guarantees when its fuel covers a free candidate: it
stops at the first untaken candidate at or after `k`. -/
theorem scanFree_spec (cand : Nat → String) (taken : String → Bool) :
    ∀ (fuel k : Nat),
      (∃ j, k ≤ j ∧ j < k + fuel ∧ taken (cand j) = false) →
      k ≤ scanFree cand taken fuel k ∧
      taken (cand (scanFree cand taken fuel k)) = false ∧
      ∀ j, k ≤ j → j < scanFree cand taken fuel k → taken (cand j) = true := by
  intro fuel
  induction fuel with
  | zero =>
    intro k ⟨j, hj1, hj2, _⟩
    omega
  | succ fuel ih =>
    intro k ⟨j, hj1, hj2, hj3⟩
    rw [scanFree]
    by_cases htk : taken (cand k) = true
    · rw [if_pos htk]
      have hjk : j ≠ k := by
        intro hEq
        rw [hEq] at hj3
        rw [hj3] at htk
        exact absurd htk (by simp)
      have hrec := ih (k + 1) ⟨j, by omega, by omega, hj3⟩
      refine ⟨by omega, hrec.2.1, ?_⟩
      intro i h1 h2
      rcases Nat.eq_or_lt_of_le h1 with hEq | hlt
      · rw [← hEq]; exact htk
      · exact hrec.2.2 i hlt h2
    · rw [if_neg htk]
      have htk' : taken (cand k) = false := by simpa using htk
      exact ⟨Nat.le_refl k, htk', fun j h1 h2 => absurd h2 (by omega)⟩

theorem funcNameTaken_mem (g : GoPkg) (s : String) :
    funcNameTaken g s = true ↔ s ∈ allNames g := by
  rw [funcNameTaken, allNames]
  simp [List.mem_flatten]

theorem pkgImportNameTaken_mem (g : GoPkg) (s : String) (f : GoFile) :
    pkgImportNameTaken g s f = true ↔ s ∈ g.typesScope ++ f.scope := by
  rw [pkgImportNameTaken]
  simp

/-- The fuel always covers a free candidate for `newFunctionName`. -/
theorem funcName_exists_free (g : GoPkg) (name : String) (k : Nat) :
    ∃ j, k ≤ j ∧ j < k + funcNameFuel g ∧ funcNameTaken g (seqName name j) = false := by
  rcases exists_cand_not_mem (allNames g) (seqName name) (seqName_injective name) k with
    ⟨j, h1, h2, h3⟩
  refine ⟨j, h1, h2, ?_⟩
  rw [← Bool.not_eq_true, funcNameTaken_mem]
  exact h3

/-- A name is *first free* for a taken-predicate along a candidate sequence
if it is some candidate, it is untaken, and every earlier candidate is
taken. -/
def IsFirstFree (taken : String → Bool) (cand : Nat → String) (s : String) : Prop :=
  ∃ k, s = cand k ∧ taken (cand k) = false ∧ ∀ j < k, taken (cand j) = true

/-- C3.  `Package.newFunctionName(P)` and `Package.newImportName(P, f)`
each return the first name of the deterministic sequence `P, P0, P1, …`
that is free in the relevant scope (the whole package and every file's
imports for function names; the package scope and `f`'s own imports
for import aliases).  Determinism is the last conjunct: the result is a pure
function of the package state. -/
theorem newName_first_free (g : GoPkg) (P : String) (f : GoFile) :
    IsFirstFree (funcNameTaken g) (seqName P) (newFunctionName g P) ∧
    IsFirstFree (fun s => pkgImportNameTaken g s f) (seqName P) (newImportName g P f) ∧
    (∀ g', g' = g → newFunctionName g' P = newFunctionName g P ∧
      newImportName g' P f = newImportName g P f) := by
  refine ⟨?_, ?_, fun g' hg => by rw [hg]; exact ⟨rfl, rfl⟩⟩
  · have hex := funcName_exists_free g P 0
    have h := scanFree_spec (seqName P) (funcNameTaken g) (funcNameFuel g) 0
      (by simpa using hex)
    exact ⟨_, rfl, h.2.1, fun j hj => h.2.2 j (Nat.zero_le j) hj⟩
  · have hex : ∃ j, 0 ≤ j ∧ j < 0 + importNameFuel g f ∧
        pkgImportNameTaken g (seqName P j) f = false := by
      rcases exists_cand_not_mem (g.typesScope ++ f.scope) (seqName P)
        (seqName_injective P) 0 with ⟨j, h1, h2, h3⟩
      refine ⟨j, h1, h2, ?_⟩
      rw [← Bool.not_eq_true, pkgImportNameTaken_mem]
      exact h3
    have h := scanFree_spec (seqName P) (fun s => pkgImportNameTaken g s f)
      (importNameFuel g f) 0 hex
    exact ⟨_, rfl, h.2.1, fun j hj => h.2.2 j (Nat.zero_le j) hj⟩


/-! ## The rewriter (`Package.rewriteFile`, `Package.Rewrite`)

The mutable fields of `bb.Package` plus a trace field `genInitNames`
recording the name returned by every `nextInit` call (instrumentation for
the statements; the source creates exactly these identifiers). -/

/-- The rewrite state of one `bb.Package`. -/
structure Package where
  /-- The executable command name (`path.Base` applied in `NewPackage`). -/
  Name : String
  /-- The static type-checked package data, never mutated by the rewrite. -/
  Pkg : GoPkg
  /-- `initCount`: next candidate index for `busyboxInitN`. -/
  initCount : Nat
  /-- The renamed `main`'s name. -/
  mainFuncName : String
  /-- The aggregate initialiser's name (`p.init.Name`). -/
  initFuncName : String
  /-- `p.init.Body.List`: the aggregate initialiser's call statements. -/
  initCalls : List GoStmt
  /-- `initAssigns`: right-hand expression → call to its hoisted
  initialiser.  Newest first, so prepending is Go's map overwrite. -/
  initAssigns : List (GoExpr × GoStmt)
  /-- Trace: every name `nextInit` has returned, in order. -/
  genInitNames : List String
deriving DecidableEq, Repr

/-- Fuel sufficient for the `nextInit` search loop. -/
def initFuel (g : GoPkg) : Nat := (allNames g).length + 1

/-- `Package.nextInit`: the first untaken `busyboxInit<c>` with
`c ≥ initCount`; optionally append a call to it to the aggregate
initialiser's body; advance `initCount` past `c`. -/
def nextInit (p : Package) (addToCallList : Bool) : String × Package :=
  let c := scanFree initCand (funcNameTaken p.Pkg) (initFuel p.Pkg) p.initCount
  let nm := initCand c
  (nm,
    { p with
        initCount := c + 1
        initCalls := if addToCallList then p.initCalls ++ [GoStmt.call nm] else p.initCalls
        genInitNames := p.genInitNames ++ [nm] })

/-- `bb.NewPackage`: fresh rewrite state; picks the renamed entry point
(prefix `registeredMain`) and the aggregate initialiser name (prefix
`registeredInit`) through the arbiter. -/
def NewPackage (name : String) (g : GoPkg) : Package :=
  { Name := baseName name
    Pkg := g
    initCount := 0
    mainFuncName := newFunctionName g "registeredMain"
    initFuncName := newFunctionName g "registeredInit"
    initCalls := []
    initAssigns := []
    genInitNames := [] }

/-- Result of hoisting the names of one var spec. -/
structure HoistOut where
  pkg : Package
  appended : List GoDecl
deriving DecidableEq, Repr

/-- The `for i, name := range s.Names` loop of `rewriteFile`'s var case:
hoist `name = s.Values[i]` into a fresh `busyboxInitN` (via
`nextInit(false)`), record the call keyed on the right-hand expression,
and collect the appended declaration.  `s.Values[i]` out of range is a Go
runtime panic (`none`). -/
def hoistVarNames (p : Package) (names : List String) (values : List GoExpr) (i : Nat) :
    Option HoistOut :=
  match names with
  | [] => some ⟨p, []⟩
  | name :: rest =>
    match values.get? i with
    | none => none
    | some v =>
      match hoistVarNames
          (let p1 := (nextInit p false).2
           { p1 with initAssigns :=
              (v, GoStmt.call (nextInit p false).1) :: p1.initAssigns })
          rest values (i + 1) with
      | none => none
      | some r =>
        some ⟨r.pkg, GoDecl.funcDecl false (nextInit p false).1 [GoStmt.assign name v] :: r.appended⟩

/-- Result of rewriting one var spec. -/
structure SpecOut where
  pkg : Package
  spec : VarSpec
  appended : List GoDecl
deriving DecidableEq, Repr

/-- One `var` spec of a VAR GenDecl.  Specs with no initialiser are left
alone (`s.Values == nil → continue`); otherwise the values are hoisted and
erased (`s.Values = nil`).  The emitted type text for inferred types
(`s.Type == nil`, §4.4.1's qualifier) is not modelled: it only affects the
printed type and possible extra imports. -/
def rewriteVarSpec (p : Package) (s : VarSpec) : Option SpecOut :=
  if s.values.isEmpty then some ⟨p, s, []⟩
  else
    match hoistVarNames p s.names s.values 0 with
    | none => none
    | some r => some ⟨r.pkg, { names := s.names, values := [] }, r.appended⟩

/-- Result of rewriting the spec list of one VAR GenDecl. -/
structure SpecsOut where
  pkg : Package
  specs : List VarSpec
  appended : List GoDecl
deriving DecidableEq, Repr

/-- All specs of one VAR GenDecl, left to right. -/
def rewriteVarSpecs (p : Package) : List VarSpec → Option SpecsOut
  | [] => some ⟨p, [], []⟩
  | s :: rest =>
    match rewriteVarSpec p s with
    | none => none
    | some r1 =>
      match rewriteVarSpecs r1.pkg rest with
      | none => none
      | some r2 => some ⟨r2.pkg, r1.spec :: r2.specs, r1.appended ++ r2.appended⟩

/-- Result of rewriting one declaration. -/
structure DeclOut where
  pkg : Package
  decl : GoDecl
  appended : List GoDecl
  hasMain : Bool
deriving DecidableEq, Repr

/-- One declaration of `rewriteFile`'s `for _, decl := range f.Decls` loop:
the (possibly renamed) declaration, the declarations appended to the file,
and whether this declaration was the entry point `func main()`. -/
def rewriteDecl (p : Package) (d : GoDecl) : Option DeclOut :=
  match d with
  | GoDecl.varDecl specs =>
    match rewriteVarSpecs p specs with
    | none => none
    | some r => some ⟨r.pkg, GoDecl.varDecl r.specs, r.appended, false⟩
  | GoDecl.funcDecl hasRecv nm body =>
    if hasRecv = false && nm = "main" then
      some ⟨p, GoDecl.funcDecl hasRecv p.mainFuncName body, [], true⟩
    else if hasRecv = false && nm = "init" then
      some ⟨(nextInit p true).2, GoDecl.funcDecl hasRecv (nextInit p true).1 body, [], false⟩
    else
      some ⟨p, d, [], false⟩
  | GoDecl.otherDecl => some ⟨p, d, [], false⟩

/-- Result of the declarations loop. -/
structure DeclsOut where
  pkg : Package
  decls : List GoDecl
  appended : List GoDecl
  hasMain : Bool
deriving DecidableEq, Repr

/-- The declarations loop.  Go's `range` captures the original slice, so
declarations appended during the loop are not themselves visited; they end
up after the originals. -/
def rewriteDecls (p : Package) : List GoDecl → Option DeclsOut
  | [] => some ⟨p, [], [], false⟩
  | d :: rest =>
    match rewriteDecl p d with
    | none => none
    | some r1 =>
      match rewriteDecls r1.pkg rest with
      | none => none
      | some r2 =>
        some ⟨r2.pkg, r1.decl :: r2.decls, r1.appended ++ r2.appended, r1.hasMain || r2.hasMain⟩

/-- Result of rewriting one file. -/
structure FileOut where
  pkg : Package
  file : GoFile
  hasMain : Bool
deriving DecidableEq, Repr

/-- `Package.rewriteFile`: renames the package clause to the command name,
hoists initialised globals, renames `main` and every `init`.  Returns the
new state, the rewritten file and the `hasMain` flag. -/
def rewriteFile (p : Package) (f : GoFile) : Option FileOut :=
  match rewriteDecls p f.decls with
  | none => none
  | some r =>
    some ⟨r.pkg, { pkgName := p.Name, scope := f.scope, imports := f.imports,
                   decls := r.decls ++ r.appended }, r.hasMain⟩

/-- Result of rewriting all files. -/
structure FilesOut where
  pkg : Package
  files : List GoFile
  mainIdx : Option Nat
deriving DecidableEq, Repr

/-- The `for _, sourceFile := range p.Pkg.Syntax` loop of `Rewrite`: all
files left to right; the *last* file containing `func main()` becomes the
main file (`mainFile = sourceFile`). -/
def rewriteFilesGo (p : Package) (idx : Nat) : List GoFile → Option FilesOut
  | [] => some ⟨p, [], none⟩
  | f :: rest =>
    match rewriteFile p f with
    | none => none
    | some r1 =>
      match rewriteFilesGo r1.pkg (idx + 1) rest with
      | none => none
      | some r2 =>
        some ⟨r2.pkg, r1.file :: r2.files,
          match r2.mainIdx with
          | some j => some j
          | none => if r1.hasMain then some idx else none⟩

/-- Failure modes of `Package.Rewrite` (and the one Go runtime panic the
code can hit in `rewriteFile`). -/
inductive RwErr where
  /-- `s.Values[i]` out of range: `var a, b = f()` panics in `rewriteFile`. -/
  | indexPanic
  /-- "no main function found in package %q". -/
  | noMainFunc (pkgPath : String)
  /-- "couldn't find init assignment %s": an initialisation-order entry
  with no hoisted call. -/
  | missingInitAssign (lhs : List String) (rhs : GoExpr)
  /-- Internal: the recorded main-file index was out of range (unreachable). -/
  | badMainIndex
deriving DecidableEq, Repr

/-- The `for _, initStmt := range p.Pkg.TypesInfo.InitOrder` loop of
`Rewrite`: look up each right-hand expression's hoisted call, in
initialisation order; error out on a missing entry. -/
def buildVarInitBody (assigns : List (GoExpr × GoStmt)) :
    List (List String × GoExpr) → Except RwErr (List GoStmt)
  | [] => .ok []
  | (lhs, rhs) :: rest =>
    match assigns.lookup rhs with
    | none => .error (.missingInitAssign lhs rhs)
    | some stmt =>
      match buildVarInitBody assigns rest with
      | .error e => .error e
      | .ok r => .ok (stmt :: r)

/-- The output of a successful `Package.Rewrite`. -/
structure Rewritten where
  /-- The rewritten files (the main file already holds the three appended
  declarations and the bbmain import). -/
  files : List GoFile
  /-- The name of `Init0`, the variable-initialiser helper created first. -/
  varInitName : String
  /-- Its body: the hoisted-initialiser calls in initialisation order. -/
  varInitBody : List GoStmt
  /-- The aggregate initialiser's name. -/
  aggInitName : String
  /-- The aggregate initialiser's body (`p.init.Body.List`). -/
  aggInitCalls : List GoStmt
  /-- The import alias chosen for the bbmain registry import. -/
  insertedAlias : String
  /-- Index of the main file in `files`. -/
  mainIdx : Nat
  /-- The final rewrite state. -/
  finalState : Package
deriving DecidableEq, Repr

/-- `Package.Rewrite`: create the variable-initialiser helper (whose call
is the first statement of the aggregate initialiser), rewrite every file,
require an entry point, build the helper's body in initialisation order,
insert the bbmain import into the main file, and append the helper, the
aggregate initialiser and the self-registration `init` to the main file.
(`writePkg`, the on-disk emission, is I/O and out of scope.) -/
def Rewrite (p : Package) (bbImportPath : String) : Except RwErr Rewritten :=
  match rewriteFilesGo (nextInit p true).2 0 p.Pkg.srcFiles with
  | none => .error .indexPanic
  | some fr =>
    match fr.mainIdx with
    | none => .error (.noMainFunc p.Pkg.pkgPath)
    | some mIdx =>
      match buildVarInitBody fr.pkg.initAssigns p.Pkg.initOrder with
      | .error e => .error e
      | .ok varBody =>
        match fr.files.get? mIdx with
        | none => .error .badMainIndex
        | some mainF =>
          let importNm := newImportName p.Pkg "bbmain" mainF
          let varInitDecl := GoDecl.funcDecl false (nextInit p true).1 varBody
          let aggDecl := GoDecl.funcDecl false p.initFuncName fr.pkg.initCalls
          let registerDecl := GoDecl.funcDecl false "init"
            [GoStmt.registerCall importNm p.Name p.initFuncName p.mainFuncName]
          let mainF' := { mainF with
            imports := mainF.imports ++ [(importNm, bbImportPath)]
            decls := mainF.decls ++ [varInitDecl, aggDecl, registerDecl] }
          .ok { files := fr.files.set mIdx mainF'
                varInitName := (nextInit p true).1
                varInitBody := varBody
                aggInitName := p.initFuncName
                aggInitCalls := fr.pkg.initCalls
                insertedAlias := importNm
                mainIdx := mIdx
                finalState := fr.pkg }

/-! ### Freshness and structure lemmas for the rewrite pass -/

/-- The fuel always covers a free candidate for `nextInit`. -/
theorem initCand_exists_free (g : GoPkg) (k : Nat) :
    ∃ j, k ≤ j ∧ j < k + initFuel g ∧ funcNameTaken g (initCand j) = false := by
  rcases exists_cand_not_mem (allNames g) initCand initCand_injective k with ⟨j, h1, h2, h3⟩
  refine ⟨j, h1, h2, ?_⟩
  rw [← Bool.not_eq_true, funcNameTaken_mem]
  exact h3

/-- What one `nextInit` call does: it returns an untaken `busyboxInitN`
name (skipping taken ones), appends it to the trace, appends its call to
the aggregate initialiser's body iff requested, and touches nothing else. -/
theorem nextInit_spec (p : Package) (addToCallList : Bool) :
    funcNameTaken p.Pkg (nextInit p addToCallList).1 = false ∧
    (nextInit p addToCallList).2.Pkg = p.Pkg ∧
    (nextInit p addToCallList).2.Name = p.Name ∧
    (nextInit p addToCallList).2.mainFuncName = p.mainFuncName ∧
    (nextInit p addToCallList).2.initFuncName = p.initFuncName ∧
    (nextInit p addToCallList).2.initAssigns = p.initAssigns ∧
    (nextInit p addToCallList).2.genInitNames = p.genInitNames ++ [(nextInit p addToCallList).1] ∧
    (nextInit p addToCallList).2.initCalls =
      (if addToCallList then p.initCalls ++ [GoStmt.call (nextInit p addToCallList).1]
       else p.initCalls) := by
  have hex := initCand_exists_free p.Pkg p.initCount
  have h := scanFree_spec initCand (funcNameTaken p.Pkg) (initFuel p.Pkg) p.initCount hex
  exact ⟨h.2.1, rfl, rfl, rfl, rfl, rfl, rfl, rfl⟩

/-- The state relation every step of the rewrite pass preserves: the static
data and the chosen entry-point/aggregate names never change, and the trace
of generated `busyboxInitN` names only grows, by names that are untaken in
the package. -/
def StepInv (p q : Package) : Prop :=
  q.Pkg = p.Pkg ∧ q.Name = p.Name ∧
  q.mainFuncName = p.mainFuncName ∧ q.initFuncName = p.initFuncName ∧
  ∃ new, q.genInitNames = p.genInitNames ++ new ∧
    ∀ n ∈ new, funcNameTaken p.Pkg n = false

theorem StepInv.refl (p : Package) : StepInv p p :=
  ⟨rfl, rfl, rfl, rfl, [], by simp, by simp⟩

theorem StepInv.trans {p q r : Package} (h1 : StepInv p q) (h2 : StepInv q r) :
    StepInv p r := by
  obtain ⟨e1, e2, e3, e4, n1, hn1, hf1⟩ := h1
  obtain ⟨f1, f2, f3, f4, n2, hn2, hf2⟩ := h2
  refine ⟨f1.trans e1, f2.trans e2, f3.trans e3, f4.trans e4, n1 ++ n2, ?_, ?_⟩
  · rw [hn2, hn1, List.append_assoc]
  · intro n hn
    rcases List.mem_append.mp hn with h | h
    · exact hf1 n h
    · rw [← e1]
      exact hf2 n h

theorem nextInit_stepInv (p : Package) (add : Bool) :
    StepInv p (nextInit p add).2 := by
  have h := nextInit_spec p add
  exact ⟨h.2.1, h.2.2.1, h.2.2.2.1, h.2.2.2.2.1, [(nextInit p add).1],
    h.2.2.2.2.2.2.1, by
      intro n hn
      rw [List.mem_singleton] at hn
      rw [hn]
      exact h.1⟩

/-- The state `hoistVarNames` starts its recursive call from. -/
theorem hoistVarNames_midState (p : Package) (v : GoExpr) :
    StepInv p
      (let p1 := (nextInit p false).2
       { p1 with initAssigns := (v, GoStmt.call (nextInit p false).1) :: p1.initAssigns }) ∧
    (let p1 := (nextInit p false).2
     { p1 with initAssigns :=
        (v, GoStmt.call (nextInit p false).1) :: p1.initAssigns }).initCalls = p.initCalls := by
  have h0 := nextInit_stepInv p false
  have hni := nextInit_spec p false
  obtain ⟨e1, e2, e3, e4, nw, hn, hf⟩ := h0
  exact ⟨⟨e1, e2, e3, e4, nw, hn, hf⟩, hni.2.2.2.2.2.2.2⟩

theorem hoistVarNames_inv (names : List String) :
    ∀ (p : Package) (values : List GoExpr) (i : Nat) (r : HoistOut),
      hoistVarNames p names values i = some r →
      StepInv p r.pkg ∧ r.pkg.initCalls = p.initCalls := by
  induction names with
  | nil =>
    intro p values i r h
    rw [hoistVarNames] at h
    injection h with h
    rw [← h]
    exact ⟨StepInv.refl p, rfl⟩
  | cons name rest ih =>
    intro p values i r h
    rw [hoistVarNames] at h
    split at h
    · exact absurd h (by simp)
    · rename_i v hv
      split at h
      · exact absurd h (by simp)
      · rename_i r2 hrec
        injection h with h
        rw [← h]
        have hmid := hoistVarNames_midState p v
        have := ih _ values (i + 1) r2 hrec
        exact ⟨hmid.1.trans this.1, by rw [this.2]; exact hmid.2⟩

/-- The renamed-initialiser contribution of one declaration position: if
the input declaration was a top-level `func init()`, the output
declaration's name (its fresh `busyboxInitN`); nothing otherwise. -/
def pairRename (din dout : GoDecl) : List String :=
  match din, dout with
  | GoDecl.funcDecl dr dn _, GoDecl.funcDecl _ nm _ =>
    if dr = false ∧ dn = "init" then [nm] else []
  | _, _ => []

/-- The renamed implicit initialisers of one file, in declaration order,
read off the output file at the input `init` declarations' positions. -/
def declRenames (ins outs : List GoDecl) : List String :=
  ((List.zip ins outs).map fun pr => pairRename pr.1 pr.2).flatten

/-- The renamed implicit initialisers of a whole package, in file order
then declaration order — the source order of the `init` functions. -/
def renamedInits (ins outs : List GoFile) : List String :=
  ((List.zip ins outs).map fun pr => declRenames pr.1.decls pr.2.decls).flatten

theorem zip_append_of_length_eq {α β : Type} (l₁ : List α) :
    ∀ (l₂ l₃ : List β), l₁.length = l₂.length →
      List.zip l₁ (l₂ ++ l₃) = List.zip l₁ l₂ := by
  induction l₁ with
  | nil => intro l₂ l₃ _; simp [List.zip]
  | cons a t ih =>
    intro l₂ l₃ hlen
    cases l₂ with
    | nil => simp at hlen
    | cons b t₂ =>
      simp only [List.cons_append, List.zip_cons_cons]
      rw [ih t₂ l₃ (by simpa using hlen)]

theorem rewriteVarSpec_inv (p : Package) (sp : VarSpec) (r : SpecOut)
    (h : rewriteVarSpec p sp = some r) :
    StepInv p r.pkg ∧ r.pkg.initCalls = p.initCalls := by
  rw [rewriteVarSpec] at h
  split at h
  · injection h with h
    rw [← h]
    exact ⟨StepInv.refl p, rfl⟩
  · split at h
    · exact absurd h (by simp)
    · rename_i r1 hrec
      injection h with h
      rw [← h]
      exact hoistVarNames_inv sp.names p sp.values 0 r1 hrec

theorem rewriteVarSpecs_inv (specs : List VarSpec) :
    ∀ (p : Package) (r : SpecsOut),
      rewriteVarSpecs p specs = some r →
      StepInv p r.pkg ∧ r.pkg.initCalls = p.initCalls := by
  induction specs with
  | nil =>
    intro p r h
    rw [rewriteVarSpecs] at h
    injection h with h
    rw [← h]
    exact ⟨StepInv.refl p, rfl⟩
  | cons sp rest ih =>
    intro p r h
    rw [rewriteVarSpecs] at h
    split at h
    · exact absurd h (by simp)
    · rename_i r1 hsp
      split at h
      · exact absurd h (by simp)
      · rename_i r2 hrec
        injection h with h
        rw [← h]
        have ha := rewriteVarSpec_inv p sp r1 hsp
        have hb := ih r1.pkg r2 hrec
        exact ⟨ha.1.trans hb.1, by rw [hb.2, ha.2]⟩

/-- What one declaration step does to the aggregate initialiser's body:
appends exactly the calls of the renamed `init` functions (`pairRename`). -/
theorem rewriteDecl_calls (p : Package) (d : GoDecl) (r : DeclOut)
    (h : rewriteDecl p d = some r) :
    StepInv p r.pkg ∧
    r.pkg.initCalls = p.initCalls ++ (pairRename d r.decl).map GoStmt.call := by
  match d with
  | GoDecl.varDecl specs =>
    rw [rewriteDecl] at h
    split at h
    · exact absurd h (by simp)
    · rename_i r1 hss
      injection h with h
      rw [← h]
      have ha := rewriteVarSpecs_inv specs p r1 hss
      exact ⟨ha.1, by rw [ha.2]; simp [pairRename]⟩
  | GoDecl.funcDecl hasRecv nm body =>
    rw [rewriteDecl] at h
    split at h
    · rename_i hcond
      simp only [Bool.and_eq_true, decide_eq_true_eq] at hcond
      obtain ⟨hrecv, hnm⟩ := hcond
      injection h with h
      rw [← h]
      refine ⟨StepInv.refl p, ?_⟩
      have hpr : pairRename (GoDecl.funcDecl hasRecv nm body)
          (GoDecl.funcDecl hasRecv p.mainFuncName body) = [] := by
        rw [pairRename]
        rw [if_neg]
        intro hc
        rw [hc.2] at hnm
        exact absurd hnm (by decide)
      rw [hpr]
      simp
    · split at h
      · rename_i hc1 hcond
        simp only [Bool.and_eq_true, decide_eq_true_eq] at hcond
        obtain ⟨hrecv, hnm⟩ := hcond
        injection h with h
        rw [← h]
        have hni := nextInit_spec p true
        refine ⟨nextInit_stepInv p true, ?_⟩
        have hpr : pairRename (GoDecl.funcDecl hasRecv nm body)
            (GoDecl.funcDecl hasRecv (nextInit p true).1 body) = [(nextInit p true).1] := by
          rw [pairRename, if_pos ⟨hrecv, hnm⟩]
        rw [hpr]
        exact hni.2.2.2.2.2.2.2
      · rename_i hc1 hc2
        injection h with h
        rw [← h]
        refine ⟨StepInv.refl p, ?_⟩
        have hpr : pairRename (GoDecl.funcDecl hasRecv nm body)
            (GoDecl.funcDecl hasRecv nm body) = [] := by
          rw [pairRename]
          rw [if_neg]
          intro hc
          exact hc2 (by simp [hc.1, hc.2])
        rw [hpr]
        simp
  | GoDecl.otherDecl =>
    rw [rewriteDecl] at h
    injection h with h
    rw [← h]
    exact ⟨StepInv.refl p, by simp [pairRename]⟩


theorem rewriteDecls_calls (l : List GoDecl) :
    ∀ (p : Package) (r : DeclsOut), rewriteDecls p l = some r →
      StepInv p r.pkg ∧ r.decls.length = l.length ∧
      r.pkg.initCalls = p.initCalls ++ (declRenames l r.decls).map GoStmt.call := by
  induction l with
  | nil =>
    intro p r h
    rw [rewriteDecls] at h
    injection h with h
    rw [← h]
    exact ⟨StepInv.refl p, rfl, by simp [declRenames]⟩
  | cons d rest ih =>
    intro p r h
    rw [rewriteDecls] at h
    split at h
    · exact absurd h (by simp)
    · rename_i r1 h1
      split at h
      · exact absurd h (by simp)
      · rename_i r2 h2
        injection h with h
        rw [← h]
        have ha := rewriteDecl_calls p d r1 h1
        have hb := ih r1.pkg r2 h2
        refine ⟨ha.1.trans hb.1, by simpa using hb.2.1, ?_⟩
        show r2.pkg.initCalls = _
        rw [hb.2.2, ha.2]
        have hdr : declRenames (d :: rest) (r1.decl :: r2.decls) =
            pairRename d r1.decl ++ declRenames rest r2.decls := by
          simp [declRenames]
        rw [hdr]
        simp [List.append_assoc]

theorem rewriteFile_calls (p : Package) (f : GoFile) (r : FileOut)
    (h : rewriteFile p f = some r) :
    StepInv p r.pkg ∧
    r.pkg.initCalls = p.initCalls ++ (declRenames f.decls r.file.decls).map GoStmt.call ∧
    r.file.scope = f.scope ∧ r.file.pkgName = p.Name := by
  rw [rewriteFile] at h
  split at h
  · exact absurd h (by simp)
  · rename_i r1 h1
    injection h with h
    rw [← h]
    have ha := rewriteDecls_calls f.decls p r1 h1
    refine ⟨ha.1, ?_, rfl, rfl⟩
    show r1.pkg.initCalls = _
    rw [ha.2.2]
    have : declRenames f.decls (r1.decls ++ r1.appended) = declRenames f.decls r1.decls := by
      rw [declRenames, declRenames, zip_append_of_length_eq f.decls r1.decls r1.appended
        ha.2.1.symm]
    rw [this]

theorem rewriteFilesGo_calls (fs : List GoFile) :
    ∀ (p : Package) (idx : Nat) (r : FilesOut), rewriteFilesGo p idx fs = some r →
      StepInv p r.pkg ∧
      r.pkg.initCalls = p.initCalls ++ (renamedInits fs r.files).map GoStmt.call := by
  induction fs with
  | nil =>
    intro p idx r h
    rw [rewriteFilesGo] at h
    injection h with h
    rw [← h]
    exact ⟨StepInv.refl p, by simp [renamedInits]⟩
  | cons f rest ih =>
    intro p idx r h
    rw [rewriteFilesGo] at h
    split at h
    · exact absurd h (by simp)
    · rename_i r1 h1
      split at h
      · exact absurd h (by simp)
      · rename_i r2 h2
        injection h with h
        rw [← h]
        have ha := rewriteFile_calls p f r1 h1
        have hb := ih r1.pkg (idx + 1) r2 h2
        refine ⟨ha.1.trans hb.1, ?_⟩
        show r2.pkg.initCalls = _
        rw [hb.2, ha.2.1]
        have : renamedInits (f :: rest) (r1.file :: r2.files) =
            declRenames f.decls r1.file.decls ++ renamedInits rest r2.files := by
          simp [renamedInits]
        rw [this]
        simp [List.append_assoc]

theorem buildVarInitBody_ok (assigns : List (GoExpr × GoStmt)) :
    ∀ (l : List (List String × GoExpr)) (r : List GoStmt),
      buildVarInitBody assigns l = .ok r →
      List.Forall₂ (fun (e : List String × GoExpr) st => assigns.lookup e.2 = some st) l r := by
  intro l
  induction l with
  | nil =>
    intro r h
    rw [buildVarInitBody] at h
    injection h with h
    rw [← h]
    exact List.Forall₂.nil
  | cons e rest ih =>
    intro r h
    match e with
    | (lhs, rhs) =>
      rw [buildVarInitBody] at h
      split at h
      · exact absurd h (by simp)
      · rename_i stmt hst
        split at h
        · exact absurd h (by simp)
        · rename_i r' hr
          injection h with h
          rw [← h]
          exact List.Forall₂.cons hst (ih r' hr)

theorem buildVarInitBody_missing (assigns : List (GoExpr × GoStmt)) :
    ∀ (l : List (List String × GoExpr)),
      (∃ e ∈ l, assigns.lookup e.2 = none) →
      ∃ lh rh, buildVarInitBody assigns l = .error (.missingInitAssign lh rh) ∧
        assigns.lookup rh = none := by
  intro l
  induction l with
  | nil =>
    rintro ⟨e, he, _⟩
    exact absurd he (List.not_mem_nil e)
  | cons e rest ih =>
    rintro ⟨e', he', hnone⟩
    match e with
    | (lhs, rhs) =>
      cases hl : assigns.lookup rhs with
      | none =>
        exact ⟨lhs, rhs, by rw [buildVarInitBody, hl], hl⟩
      | some stmt =>
        have he'' : e' ∈ rest := by
          rcases List.mem_cons.mp he' with hEq | h
          · exfalso
            rw [hEq] at hnone
            simp only at hnone
            rw [hnone] at hl
            exact absurd hl (by simp)
          · exact h
        rcases ih ⟨e', he'', hnone⟩ with ⟨lh, rh, herr, hrh⟩
        refine ⟨lh, rh, ?_, hrh⟩
        rw [buildVarInitBody, hl, herr]


/-- C1.  `Package.Rewrite` appends the hoisted-initialiser calls to the
variable-initialiser helper in exactly the order of
`TypesInfo.InitOrder` (first conjunct: the helper's body is pointwise the
mapped call of each initialisation-order entry), and the aggregate
initialiser's call list is the call to that helper followed by the calls
of the renamed implicit `init` functions in source order (file order, then
declaration order).  If an initialisation-order entry has no mapped call,
`Rewrite` returns the `couldn't find init assignment` error instead
(second conjunct; the main file must have been found, since that check
precedes the initialisation-order walk). -/
theorem Rewrite_init_order (p : Package) (bbPath : String) (fr : FilesOut)
    (hinit : p.initCalls = [])
    (hfiles : rewriteFilesGo (nextInit p true).2 0 p.Pkg.srcFiles = some fr) :
    (∀ out, Rewrite p bbPath = .ok out →
      List.Forall₂ (fun (e : List String × GoExpr) st =>
        fr.pkg.initAssigns.lookup e.2 = some st) p.Pkg.initOrder out.varInitBody ∧
      out.varInitName = (nextInit p true).1 ∧
      out.aggInitCalls = GoStmt.call out.varInitName ::
        (renamedInits p.Pkg.srcFiles fr.files).map GoStmt.call) ∧
    (∀ mIdx, fr.mainIdx = some mIdx →
      (∃ e ∈ p.Pkg.initOrder, fr.pkg.initAssigns.lookup e.2 = none) →
      ∃ lh rh, Rewrite p bbPath = .error (.missingInitAssign lh rh)) := by
  constructor
  · intro out hok
    rw [Rewrite] at hok
    rw [hfiles] at hok
    dsimp only [] at hok
    cases hmi : fr.mainIdx with
    | none => rw [hmi] at hok; exact absurd hok (by simp)
    | some mIdx =>
      rw [hmi] at hok
      dsimp only [] at hok
      cases hb : buildVarInitBody fr.pkg.initAssigns p.Pkg.initOrder with
      | error e => rw [hb] at hok; exact absurd hok (by simp)
      | ok varBody =>
        rw [hb] at hok
        dsimp only [] at hok
        cases hg : fr.files.get? mIdx with
        | none => rw [hg] at hok; exact absurd hok (by simp)
        | some mainF =>
          rw [hg] at hok
          dsimp only [] at hok
          injection hok with hok
          rw [← hok]
          have hfa := buildVarInitBody_ok fr.pkg.initAssigns p.Pkg.initOrder varBody hb
          refine ⟨hfa, rfl, ?_⟩
          show fr.pkg.initCalls = _
          have hcalls := rewriteFilesGo_calls p.Pkg.srcFiles (nextInit p true).2 0 fr hfiles
          rw [hcalls.2]
          have hni := nextInit_spec p true
          rw [hni.2.2.2.2.2.2.2]
          rw [if_pos rfl, hinit]
          simp
  · intro mIdx hmi hmiss
    rcases buildVarInitBody_missing fr.pkg.initAssigns p.Pkg.initOrder hmiss with
      ⟨lh, rh, herr, _⟩
    refine ⟨lh, rh, ?_⟩
    rw [Rewrite]
    rw [hfiles]
    dsimp only []
    rw [hmi]
    dsimp only []
    rw [herr]


/-- A concrete single-file command: `var x = <expr 0>`, `func main()`,
`func init()` — the shape of a typical small Go command. -/
def g1 : GoPkg :=
  { pkgPath := "example.com/cmd/mycmd"
    typesScope := ["x", "main"]
    srcFiles := [{ pkgName := "main", scope := [], imports := [],
                   decls := [GoDecl.varDecl [⟨["x"], [0]⟩],
                             GoDecl.funcDecl false "main" [],
                             GoDecl.funcDecl false "init" []] }]
    initOrder := [(["x"], 0)] }

/-- The file-loop output on `g1` (checked against the code by `decide` in
the witness below). -/
def frC1 : FilesOut :=
  { pkg := { Name := "mycmd", Pkg := g1, initCount := 3
             mainFuncName := "registeredMain", initFuncName := "registeredInit"
             initCalls := [GoStmt.call "busyboxInit0", GoStmt.call "busyboxInit2"]
             initAssigns := [(0, GoStmt.call "busyboxInit1")]
             genInitNames := ["busyboxInit0", "busyboxInit1", "busyboxInit2"] }
    files := [{ pkgName := "mycmd", scope := [], imports := [],
                decls := [GoDecl.varDecl [⟨["x"], []⟩],
                          GoDecl.funcDecl false "registeredMain" [],
                          GoDecl.funcDecl false "busyboxInit2" [],
                          GoDecl.funcDecl false "busyboxInit1" [GoStmt.assign "x" 0]] }]
    mainIdx := some 0 }

/-- The full `Rewrite` output on `g1`. -/
def outC1 : Rewritten :=
  { files := [{ pkgName := "mycmd", scope := [],
                imports := [("bbmain", "bb.u-root.com/bb/pkg/bbmain")],
                decls := [GoDecl.varDecl [⟨["x"], []⟩],
                          GoDecl.funcDecl false "registeredMain" [],
                          GoDecl.funcDecl false "busyboxInit2" [],
                          GoDecl.funcDecl false "busyboxInit1" [GoStmt.assign "x" 0],
                          GoDecl.funcDecl false "busyboxInit0" [GoStmt.call "busyboxInit1"],
                          GoDecl.funcDecl false "registeredInit"
                            [GoStmt.call "busyboxInit0", GoStmt.call "busyboxInit2"],
                          GoDecl.funcDecl false "init"
                            [GoStmt.registerCall "bbmain" "mycmd" "registeredInit" "registeredMain"]] }]
    varInitName := "busyboxInit0"
    varInitBody := [GoStmt.call "busyboxInit1"]
    aggInitName := "registeredInit"
    aggInitCalls := [GoStmt.call "busyboxInit0", GoStmt.call "busyboxInit2"]
    insertedAlias := "bbmain"
    mainIdx := 0
    finalState := frC1.pkg }

/-- Witness for C1 on the concrete command `g1`: the helper's body is the
mapped call of the single initialisation-order entry, and the aggregate
initialiser calls the helper first and the renamed `init` after. -/
theorem Rewrite_init_order_witness :
    List.Forall₂ (fun (e : List String × GoExpr) st =>
      frC1.pkg.initAssigns.lookup e.2 = some st) g1.initOrder outC1.varInitBody ∧
    outC1.aggInitCalls = GoStmt.call outC1.varInitName ::
      (renamedInits g1.srcFiles frC1.files).map GoStmt.call := by
  have h := (Rewrite_init_order (NewPackage "mycmd" g1) "bb.u-root.com/bb/pkg/bbmain"
      frC1 rfl (by decide)).1 outC1 rfl
  exact ⟨h.1, h.2.2⟩

/-! ### C2: name-collision freedom, and its cross-file alias exception -/

/-- A file with `func main()` and no imports. -/
def fileA : GoFile :=
  { pkgName := "main", scope := [], imports := [],
    decls := [GoDecl.funcDecl false "main" []] }

/-- A second file of the same package that imports some *other* package
under the alias `bbmain`. -/
def fileB : GoFile :=
  { pkgName := "main", scope := ["bbmain"],
    imports := [("bbmain", "example.com/other/bbmain")], decls := [] }

/-- The two-file package built from them. -/
def gC2 : GoPkg :=
  { pkgPath := "example.com/cmd/foo", typesScope := ["main"],
    srcFiles := [fileA, fileB], initOrder := [] }

/-- C2 counterexample.  `newImportName` only avoids the package scope and
the scope of the file the import is inserted into ("Imports in other files
have no effect"), so `Rewrite` happily gives the bbmain registry import the
alias `bbmain` in `fileA` even though `fileB`'s file scope already has
an import alias `bbmain`.  The claim — that every inserted alias differs from
every import alias in the file scope of *each* file of the package — is
false at this package. -/
theorem rewrite_alias_cross_file_counterexample :
    (Rewrite (NewPackage "foo" gC2) "bb.u-root.com/bb/pkg/bbmain").toOption.map
      Rewritten.insertedAlias = some "bbmain" ∧
    "bbmain" ∈ fileB.scope ∧ fileB ∈ gC2.srcFiles := by decide

theorem get?_set_of_some {α : Type} (l : List α) (i : Nat) (a b : α)
    (h : (l.set i a).get? i = some b) : b = a := by
  cases hlt : Nat.decLt i l.length with
  | isTrue hl =>
    rw [List.get?_set_eq] at h
    cases hg : l.get? i with
    | none => rw [hg] at h; exact absurd h (by simp)
    | some c => rw [hg] at h; injection h with h; exact h.symm
  | isFalse hl =>
    exfalso
    have : (l.set i a).get? i = none := by
      apply List.get?_eq_none.mpr
      simpa using Nat.le_of_not_lt hl
    rw [this] at h
    exact absurd h (by simp)

/-- C2 amended.  Every identifier the rewriter introduces is fresh in the
scopes its arbiter checks: the renamed entry point, the aggregate
initialiser name and every generated `busyboxInitN` avoid the package
scope *and* every file's import scope; the inserted bbmain import alias
avoids the package scope and the scope of the file it is inserted into —
but not necessarily the import scopes of the package's *other* files (see
the counterexample). -/
theorem rewriter_fresh_names (nmArg : String) (g : GoPkg) (bbPath : String) (out : Rewritten)
    (hok : Rewrite (NewPackage nmArg g) bbPath = .ok out) :
    funcNameTaken g (NewPackage nmArg g).mainFuncName = false ∧
    funcNameTaken g (NewPackage nmArg g).initFuncName = false ∧
    (∀ n ∈ out.finalState.genInitNames, funcNameTaken g n = false) ∧
    (∀ mF, out.files.get? out.mainIdx = some mF →
      pkgImportNameTaken g out.insertedAlias mF = false) := by
  have hmain : funcNameTaken g (NewPackage nmArg g).mainFuncName = false := by
    rcases (newName_first_free g "registeredMain" fileA).1 with ⟨k, hk, hfree, _⟩
    show funcNameTaken g (newFunctionName g "registeredMain") = false
    rw [hk]
    exact hfree
  have hinitnm : funcNameTaken g (NewPackage nmArg g).initFuncName = false := by
    rcases (newName_first_free g "registeredInit" fileA).1 with ⟨k, hk, hfree, _⟩
    show funcNameTaken g (newFunctionName g "registeredInit") = false
    rw [hk]
    exact hfree
  refine ⟨hmain, hinitnm, ?_⟩
  rw [Rewrite] at hok
  cases hfs : rewriteFilesGo (nextInit (NewPackage nmArg g) true).2 0
      (NewPackage nmArg g).Pkg.srcFiles with
  | none => rw [hfs] at hok; exact absurd hok (by simp)
  | some fr =>
    rw [hfs] at hok
    dsimp only [] at hok
    cases hmi : fr.mainIdx with
    | none => rw [hmi] at hok; exact absurd hok (by simp)
    | some mIdx =>
      rw [hmi] at hok
      dsimp only [] at hok
      cases hb : buildVarInitBody fr.pkg.initAssigns
          (NewPackage nmArg g).Pkg.initOrder with
      | error e => rw [hb] at hok; exact absurd hok (by simp)
      | ok varBody =>
        rw [hb] at hok
        dsimp only [] at hok
        cases hg : fr.files.get? mIdx with
        | none => rw [hg] at hok; exact absurd hok (by simp)
        | some mainF =>
          rw [hg] at hok
          dsimp only [] at hok
          injection hok with hok
          rw [← hok]
          constructor
          · -- freshness of the generated busyboxInitN trace
            intro n hn
            have h1 := nextInit_stepInv (NewPackage nmArg g) true
            have h2 := (rewriteFilesGo_calls (NewPackage nmArg g).Pkg.srcFiles
              (nextInit (NewPackage nmArg g) true).2 0 fr hfs).1
            have h3 := h1.trans h2
            obtain ⟨_, _, _, _, nw, hnw, hfw⟩ := h3
            have : n ∈ nw := by
              have : fr.pkg.genInitNames = nw := by
                rw [hnw]
                show (NewPackage nmArg g).genInitNames ++ nw = nw
                simp [NewPackage]
              rw [← this]
              exact hn
            exact hfw n this
          · -- freshness of the inserted alias in the file it lands in
            intro mF hmF
            have hEq := get?_set_of_some fr.files mIdx _ mF hmF
            rw [hEq]
            show pkgImportNameTaken g (newImportName (NewPackage nmArg g).Pkg "bbmain" mainF) _ = false
            rcases (newName_first_free (NewPackage nmArg g).Pkg "bbmain" mainF).2.1 with
      ⟨k, hk, hfree, _⟩
            rw [hk]
            exact hfree

/-- Witness for C2's amended theorem at the concrete command `g1`: the
renamed entry point, a generated `busyboxInitN` and the inserted alias are
all untaken. -/
theorem rewriter_fresh_names_witness :
    funcNameTaken g1 (NewPackage "mycmd" g1).mainFuncName = false ∧
    funcNameTaken g1 "busyboxInit1" = false ∧
    pkgImportNameTaken g1 outC1.insertedAlias
      { pkgName := "mycmd", scope := [],
        imports := [("bbmain", "bb.u-root.com/bb/pkg/bbmain")],
        decls := [GoDecl.varDecl [⟨["x"], []⟩],
                  GoDecl.funcDecl false "registeredMain" [],
                  GoDecl.funcDecl false "busyboxInit2" [],
                  GoDecl.funcDecl false "busyboxInit1" [GoStmt.assign "x" 0],
                  GoDecl.funcDecl false "busyboxInit0" [GoStmt.call "busyboxInit1"],
                  GoDecl.funcDecl false "registeredInit"
                    [GoStmt.call "busyboxInit0", GoStmt.call "busyboxInit2"],
                  GoDecl.funcDecl false "init"
                    [GoStmt.registerCall "bbmain" "mycmd" "registeredInit" "registeredMain"]] }
      = false := by
  have h := rewriter_fresh_names "mycmd" g1 "bb.u-root.com/bb/pkg/bbmain" outC1 rfl
  refine ⟨h.1, h.2.2.1 "busyboxInit1" (by decide), h.2.2.2 _ (by decide)⟩

/-! ### C4: the missing package-name sanitisation -/

/-- A Go identifier (at the ASCII level the test inputs live in): a letter
or underscore followed by letters, digits or underscores. -/
def isGoIdent (s : String) : Bool :=
  match s.data with
  | [] => false
  | c :: rest => (c.isAlpha || c = '_') && rest.all (fun d => d.isAlphanum || d = '_')

/-- Modelled from the spec: the sanitisation §4.4 step 1 prescribes for
the rewritten file's package name ("leading digit → prefixed underscore;
hyphens → underscore") and that the `test/12-fancy-cmd` test relies on.
This step is absent from `Package.rewriteFile` in this tree. -/
def sanitizeName (s : String) : String :=
  let t : List Char := s.data.map (fun c => if c = '-' then '_' else c)
  match t with
  | [] => ⟨t⟩
  | c :: _ => if c.isDigit then ⟨'_' :: t⟩ else ⟨t⟩

/-- The `12-fancy-cmd` command from `test/12-fancy-cmd`. -/
def fancyFile : GoFile :=
  { pkgName := "main", scope := [], imports := [],
    decls := [GoDecl.funcDecl false "main" []] }

/-- Its package. -/
def fancyPkg : GoPkg :=
  { pkgPath := "github.com/u-root/gobusybox/test/12-fancy-cmd",
    typesScope := ["main"], srcFiles := [fancyFile], initOrder := [] }

/-- C4.  `rewriteFile` writes the command's short name into the package
clause verbatim (`f.Name.Name = p.Name`): for `12-fancy-cmd` the emitted
clause is `package 12-fancy-cmd`, which is not a legal identifier, so the
emitted file cannot parse and the build of `test/12-fancy-cmd` (whose
test script requires success) fails.  The spec's sanitised name
`_12_fancy_cmd` is a legal identifier. -/
theorem rewriteFile_no_sanitize_12fancy :
    (rewriteFile (NewPackage "12-fancy-cmd" fancyPkg) fancyFile).map
      (fun r => r.file.pkgName) = some "12-fancy-cmd" ∧
    isGoIdent "12-fancy-cmd" = false ∧
    sanitizeName "12-fancy-cmd" = "_12_fancy_cmd" ∧
    isGoIdent (sanitizeName "12-fancy-cmd") = true := by
  refine ⟨?_, by decide, by decide, by decide⟩
  decide


/-! ## `checkDuplicate` and `BuildBusybox` (C5)

`BuildBusybox` drives the whole build; its subprocess-backed steps
(`NewPackages`/`go list`, per-command `Rewrite` + emission, dependency
copying, `go build`) are an oracle here.  The one piece of pure logic the
claim is about — `checkDuplicate` — is modelled exactly; note that its
call in `BuildBusybox` is commented out in the source
(`/*if err := checkDuplicate(cmdPaths); err != nil {...}*/`). -/

/-- The loop of `bb.checkDuplicate`, carrying the `seen` set. -/
def checkDuplicateGo (seen : List String) : List String → Except String Unit
  | [] => .ok ()
  | cmd :: rest =>
    if seen.contains (baseName cmd) then
      .error ("failed to build with bb: found duplicate command " ++ baseName cmd)
    else checkDuplicateGo (baseName cmd :: seen) rest

/-- `bb.checkDuplicate`: reject a command list in which two paths share a
basename, naming the colliding command. -/
def checkDuplicate (cmds : List String) : Except String Unit :=
  checkDuplicateGo [] cmds

/-- The external steps of `BuildBusybox`: package loading (`go list`),
per-command rewrite + emission, the dependency work and the final
`go build`.  Each may fail with a message. -/
structure BuildOracle where
  newPackages : List String → Except String (List String)
  rewriteCmd : String → Except String Unit
  writeBBMain : Except String Unit
  dealWithDeps : Except String Bool
  buildDir : Except String Unit

/-- The `for _, cmd := range cmds { cmd.Rewrite(...) }` loop. -/
def rewriteAll (o : BuildOracle) : List String → Except String Unit
  | [] => .ok ()
  | c :: rest =>
    match o.rewriteCmd c with
    | .error e => .error ("rewriting command " ++ c ++ " failed: " ++ e)
    | .ok _ => rewriteAll o rest

/-- `bb.BuildBusybox` (control flow; temp-dir handling is I/O).  The
`checkDuplicate(cmdPaths)` call that would sit before `NewPackages` is
commented out in the source, so no duplicate check happens here. -/
def BuildBusybox (o : BuildOracle) (cmdPaths : List String) : Except String Unit :=
  match o.newPackages cmdPaths with
  | .error e => .error ("finding packages failed: " ++ e)
  | .ok cmds =>
    if cmds.isEmpty then .error "no commands compiled"
    else
      match rewriteAll o cmds with
      | .error e => .error e
      | .ok _ =>
        match o.dealWithDeps with
        | .error e => .error ("dealing with deps: " ++ e)
        | .ok _ =>
          match o.writeBBMain with
          | .error e => .error e
          | .ok _ =>
            match o.buildDir with
            | .error e => .error ("go build: " ++ e)
            | .ok _ => .ok ()

/-- An oracle whose every external step succeeds (loads exactly the
requested commands, every rewrite and the build succeed). -/
def benignOracle : BuildOracle :=
  { newPackages := fun paths => .ok paths
    rewriteCmd := fun _ => .ok ()
    writeBBMain := .ok ()
    dealWithDeps := .ok true
    buildDir := .ok () }

/-- C5 counterexample.  `./mod5/cmd/hello` and `./mod6/cmd/hello` share
the basename `hello`, yet `BuildBusybox` (with every subprocess
succeeding) returns success: the duplicate check is commented out, so the
build does not fail with the duplicate-command message the claim
requires. -/
theorem BuildBusybox_duplicate_counterexample :
    BuildBusybox benignOracle ["./mod5/cmd/hello", "./mod6/cmd/hello"] = .ok () ∧
    baseName "./mod5/cmd/hello" = baseName "./mod6/cmd/hello" := by
  exact ⟨rfl, by decide⟩

theorem checkDuplicateGo_ok_iff (l : List String) :
    ∀ (seen : List String),
      checkDuplicateGo seen l = .ok () ↔
        ((l.map baseName).Nodup ∧ ∀ n ∈ l.map baseName, n ∉ seen) := by
  induction l with
  | nil =>
    intro seen
    constructor
    · intro _; exact ⟨List.nodup_nil, by simp⟩
    · intro _; rfl
  | cons c rest ih =>
    intro seen
    rw [checkDuplicateGo]
    by_cases hc : baseName c ∈ seen
    · rw [if_pos (by simpa using hc)]
      constructor
      · intro h; exact absurd h (by simp)
      · rintro ⟨_, hall⟩
        exact absurd hc (hall (baseName c) (by simp))
    · rw [if_neg (by simpa using hc)]
      rw [ih (baseName c :: seen)]
      constructor
      · rintro ⟨hnd, hall⟩
        refine ⟨List.nodup_cons.mpr ⟨?_, hnd⟩, ?_⟩
        · intro hmem
          exact absurd (List.mem_cons_self (baseName c) seen) (hall (baseName c) hmem)
        · intro n hn
          rcases List.mem_cons.mp hn with hEq | hmem
          · rw [hEq]; exact hc
          · intro hns
            exact absurd (List.mem_cons_of_mem (baseName c) hns) (hall n hmem)
      · rintro ⟨hnd, hall⟩
        obtain ⟨hnotin, hnd'⟩ := List.nodup_cons.mp hnd
        refine ⟨hnd', ?_⟩
        intro n hn hmem
        rcases List.mem_cons.mp hmem with hEq | hns
        · rw [hEq] at hn; exact hnotin hn
        · exact hall n (List.mem_cons_of_mem _ hn) hns

theorem checkDuplicateGo_err (l : List String) :
    ∀ (seen : List String), checkDuplicateGo seen l ≠ .ok () →
      ∃ n, checkDuplicateGo seen l =
          .error ("failed to build with bb: found duplicate command " ++ n) ∧
        2 ≤ (seen ++ l.map baseName).count n := by
  induction l with
  | nil =>
    intro seen h
    exact absurd rfl h
  | cons c rest ih =>
    intro seen h
    rw [checkDuplicateGo] at h ⊢
    by_cases hc : baseName c ∈ seen
    · rw [if_pos (by simpa using hc)] at h ⊢
      refine ⟨baseName c, rfl, ?_⟩
      have h1 : 0 < seen.count (baseName c) := List.count_pos_iff_mem.mpr hc
      have h2 : 0 < ((c :: rest).map baseName).count (baseName c) :=
        List.count_pos_iff_mem.mpr (by simp)
      rw [List.count_append]
      omega
    · rw [if_neg (by simpa using hc)] at h ⊢
      rcases ih (baseName c :: seen) h with ⟨n, herr, hcount⟩
      refine ⟨n, herr, ?_⟩
      rw [List.count_append] at hcount ⊢
      rw [List.count_cons] at hcount
      simp only [List.map_cons, List.count_cons]
      omega

/-- C5 amended.  `checkDuplicate` accepts a command list iff no two paths
share a basename, and on duplication it fails with a message naming a
basename that occurs at least twice.  But `BuildBusybox` never invokes it
(its call is commented out): with every external build step succeeding,
the build succeeds no matter what the basenames are. -/
theorem checkDuplicate_correct_but_uncalled (cmds : List String) (o : BuildOracle) :
    (checkDuplicate cmds = .ok () ↔ (cmds.map baseName).Nodup) ∧
    (¬ (cmds.map baseName).Nodup →
      ∃ n, checkDuplicate cmds =
          .error ("failed to build with bb: found duplicate command " ++ n) ∧
        2 ≤ (cmds.map baseName).count n) ∧
    (∀ pkgs, o.newPackages cmds = .ok pkgs → pkgs ≠ [] →
      (∀ c ∈ pkgs, o.rewriteCmd c = .ok ()) →
      o.dealWithDeps = .ok true → o.writeBBMain = .ok () → o.buildDir = .ok () →
      BuildBusybox o cmds = .ok ()) := by
  refine ⟨?_, ?_, ?_⟩
  · rw [checkDuplicate, checkDuplicateGo_ok_iff]
    simp
  · intro hdup
    have hne : checkDuplicateGo [] cmds ≠ .ok () := by
      intro hok
      exact hdup ((checkDuplicateGo_ok_iff cmds []).mp hok).1
    rcases checkDuplicateGo_err cmds [] hne with ⟨n, herr, hcount⟩
    exact ⟨n, herr, by simpa using hcount⟩
  · intro pkgs hnew hne hrw hdeps hmain hbuild
    rw [BuildBusybox, hnew]
    dsimp only []
    rw [if_neg (by simpa using hne)]
    have hra : rewriteAll o pkgs = .ok () := by
      clear hnew hne
      induction pkgs with
      | nil => rfl
      | cons c rest ih =>
        rw [rewriteAll, hrw c (by simp)]
        exact ih (fun x hx => hrw x (List.mem_cons_of_mem c hx))
    rw [hra]
    dsimp only []
    rw [hdeps]
    dsimp only []
    rw [hmain]
    dsimp only []
    rw [hbuild]

/-- Witness for C5's amended theorem on the two `hello` commands. -/
theorem checkDuplicate_correct_but_uncalled_witness :
    (∃ n, checkDuplicate ["./mod5/cmd/hello", "./mod6/cmd/hello"] =
        .error ("failed to build with bb: found duplicate command " ++ n) ∧
      2 ≤ ((["./mod5/cmd/hello", "./mod6/cmd/hello"].map baseName).count n)) ∧
    BuildBusybox benignOracle ["./mod5/cmd/hello", "./mod6/cmd/hello"] = .ok () := by
  refine ⟨(checkDuplicate_correct_but_uncalled
      ["./mod5/cmd/hello", "./mod6/cmd/hello"] benignOracle).2.1 (by decide), ?_⟩
  exact (checkDuplicate_correct_but_uncalled
      ["./mod5/cmd/hello", "./mod6/cmd/hello"] benignOracle).2.2
    ["./mod5/cmd/hello", "./mod6/cmd/hello"] rfl (by decide)
    (fun c _ => rfl) rfl rfl rfl


/-! ## The module reconciler (`localModules`, `dealWithDeps`) (C9)

`localModules` builds a table of locally rooted modules keyed by module
path.  The first loop enters the requested main packages' own modules; the
second enters every locally-replaced module of each package's dependency
graph, failing when two entries rebind the same module path to different
local directories; a third pass reports remote-vs-local conflicts.  The
`copyGoMod` file copies are I/O and out of scope; Go's map iteration
order is fixed here by using insertion-ordered association lists. -/

/-- A `packages.Module` as far as the reconciler reads it. -/
structure GoModule where
  path : String
  dir : String
  goMod : String
deriving DecidableEq, Repr

/-- One requested main package: its own module (may be absent), the
locally-replaced modules of its dependency graph
(`locallyReplacedModules` — empty when the package has no module), and
all modules of its dependency graph (`packages.Visit`). -/
structure MainPkg where
  module : Option GoModule
  locallyReplaced : List GoModule
  depModules : List GoModule
deriving DecidableEq, Repr

/-- Where a table entry came from (the `provenance` strings). -/
inductive Provenance where
  /-- "your request to compile %s from %s". -/
  | request (modPath dir : String)
  /-- "%s's go.mod (%s)". -/
  | fromGoMod (modPath goMod : String)
deriving DecidableEq, Repr

/-- The reconciler's failures. -/
inductive ModErr where
  /-- "two conflicting versions of module %s have been requested; one from
  %s, the other from %s's go.mod". -/
  | conflictingLocal (modPath : String) (first : Provenance) (secondModPath : String)
  /-- "conflicting module dependencies found" (remote-vs-local). -/
  | conflictingDeps
deriving DecidableEq, Repr

/-- The table of locally rooted modules: path → (module, provenance),
insertion-ordered. -/
abbrev ModTable := List (String × GoModule × Provenance)

/-- First loop: enter each requested package's own module. -/
def mainModulesLoop : List MainPkg → ModTable → ModTable
  | [], t => t
  | p :: rest, t =>
    match p.module with
    | none => mainModulesLoop rest t
    | some m =>
      if (t.lookup m.path).isSome then mainModulesLoop rest t
      else mainModulesLoop rest (t ++ [(m.path, m, .request m.path m.dir)])

/-- Inner part of the second loop: each locally-replaced module of one
package, against the table, failing on a rebinding to a different
directory. -/
def replacedLoop (parentPath : String) (parentGoMod : String) :
    List GoModule → ModTable → Except ModErr ModTable
  | [], t => .ok t
  | m :: ms, t =>
    match t.lookup m.path with
    | some (orig, prov) =>
      if orig.dir ≠ m.dir then
        .error (.conflictingLocal m.path prov parentPath)
      else replacedLoop parentPath parentGoMod ms t
    | none =>
      replacedLoop parentPath parentGoMod ms
        (t ++ [(m.path, m, .fromGoMod parentPath parentGoMod)])

/-- Second loop over packages.  A package without a module has no
locally-replaced modules (`locallyReplacedModules` returns nil), so it is
skipped. -/
def replacedModulesLoop : List MainPkg → ModTable → Except ModErr ModTable
  | [], t => .ok t
  | p :: rest, t =>
    match p.module with
    | none => replacedModulesLoop rest t
    | some pm =>
      match replacedLoop pm.path pm.goMod p.locallyReplaced t with
      | .error e => .error e
      | .ok t' => replacedModulesLoop rest t'

/-- The remote-vs-local scan: some dependency module's directory differs
from the table's local binding of the same path. -/
def hasRemoteLocalConflict (t : ModTable) (pkgs : List MainPkg) : Bool :=
  pkgs.any fun p => p.depModules.any fun m =>
    match t.lookup m.path with
    | some (orig, _) => orig.dir ≠ m.dir
    | none => false

/-- `bb.localModules`: the list of locally rooted module paths, or a
conflict error. -/
def localModules (mainPkgs : List MainPkg) : Except ModErr (List String) :=
  match replacedModulesLoop mainPkgs (mainModulesLoop mainPkgs []) with
  | .error e => .error e
  | .ok t =>
    if hasRemoteLocalConflict t mainPkgs then .error .conflictingDeps
    else .ok (t.map (fun e => e.1))

/-- The synthesized top-level go.mod content: the module line plus one
local `replace` per locally rooted module. -/
def goModContent (mods : List String) : String :=
  mods.foldl (fun acc mpath => acc ++ "\nreplace " ++ mpath ++ " => ../../" ++ mpath ++ "\n")
    "module bb.u-root.com/bb"

/-- `bb.dealWithDeps`, reduced to what decides the top-level manifest: on
a reconciler error nothing is produced; otherwise the go.mod is written
exactly when modules are on or any local module exists. -/
def dealWithDeps (go111module : String) (mainPkgs : List MainPkg) :
    Except ModErr (Bool × Option String) :=
  match localModules mainPkgs with
  | .error e => .error e
  | .ok mods =>
    if go111module = "on" || decide (0 < mods.length) then
      .ok (true, some (goModContent mods))
    else .ok (false, none)

/-! ### C9: conflicting local rebindings are fatal -/

theorem lookup_mono {t : ModTable} (more : ModTable) (k : String)
    {v : GoModule × Provenance} (h : t.lookup k = some v) :
    (t ++ more).lookup k = some v := by
  rw [lookup_append, h]
  rfl

/-- `replacedLoop` only extends the table, and every module it has
processed successfully is bound in the final table to its own directory. -/
theorem replacedLoop_sound (pp pg : String) (ms : List GoModule) :
    ∀ (t t' : ModTable), replacedLoop pp pg ms t = .ok t' →
      (∀ k v, t.lookup k = some v → t'.lookup k = some v) ∧
      (∀ m ∈ ms, ∃ mm pv, t'.lookup m.path = some (mm, pv) ∧ mm.dir = m.dir) := by
  induction ms with
  | nil =>
    intro t t' h
    rw [replacedLoop] at h
    injection h with h
    rw [← h]
    exact ⟨fun k v hv => hv, by simp⟩
  | cons m ms ih =>
    intro t t' h
    rw [replacedLoop] at h
    split at h
    · rename_i orig prov hl
      split at h
      · exact absurd h (by simp)
      · rename_i hdir
        have heq : orig.dir = m.dir := by
          by_contra hne
          exact hdir hne
        have hrec := ih t t' h
        refine ⟨hrec.1, ?_⟩
        intro m' hm'
        rcases List.mem_cons.mp hm' with hEq | hmem
        · subst hEq
          exact ⟨orig, prov, hrec.1 _ _ hl, heq⟩
        · exact hrec.2 m' hmem
    · rename_i hl
      have hrec := ih _ t' h
      refine ⟨?_, ?_⟩
      · intro k v hv
        exact hrec.1 k v (lookup_mono _ k hv)
      · intro m' hm'
        rcases List.mem_cons.mp hm' with hEq | hmem
        · subst hEq
          refine ⟨m', .fromGoMod pp pg, ?_, rfl⟩
          apply hrec.1
          rw [lookup_append, hl]
          simp [List.lookup]
        · exact hrec.2 m' hmem

/-- `replacedLoop` can only fail with the duplicate-local-definition
error. -/
theorem replacedLoop_err_shape (pp pg : String) (ms : List GoModule) :
    ∀ (t : ModTable) (e : ModErr), replacedLoop pp pg ms t = .error e →
      ∃ mp pv, e = .conflictingLocal mp pv pp := by
  induction ms with
  | nil =>
    intro t e h
    rw [replacedLoop] at h
    exact absurd h (by simp)
  | cons m ms ih =>
    intro t e h
    rw [replacedLoop] at h
    split at h
    · rename_i orig prov hl
      split at h
      · injection h with h
        exact ⟨m.path, prov, h.symm⟩
      · exact ih t e h
    · exact ih _ e h

/-- Same two facts one level up, over the package loop.  A package
without a module has no locally-replaced modules in the source
(`locallyReplacedModules` returns nil for it), which `hwf` captures. -/
theorem replacedModulesLoop_sound (pkgs : List MainPkg)
    (hwf : ∀ p ∈ pkgs, p.module = none → p.locallyReplaced = []) :
    ∀ (t t' : ModTable), replacedModulesLoop pkgs t = .ok t' →
      (∀ k v, t.lookup k = some v → t'.lookup k = some v) ∧
      (∀ p ∈ pkgs, ∀ m ∈ p.locallyReplaced,
        ∃ mm pv, t'.lookup m.path = some (mm, pv) ∧ mm.dir = m.dir) := by
  induction pkgs with
  | nil =>
    intro t t' h
    rw [replacedModulesLoop] at h
    injection h with h
    rw [← h]
    exact ⟨fun k v hv => hv, by simp⟩
  | cons p rest ih =>
    intro t t' h
    rw [replacedModulesLoop] at h
    split at h
    · rename_i hmod
      have hrec := ih (fun q hq => hwf q (List.mem_cons_of_mem p hq)) t t' h
      refine ⟨hrec.1, ?_⟩
      intro p' hp' m hm
      rcases List.mem_cons.mp hp' with hEq | hmem
      · subst hEq
        rw [hwf p' (List.mem_cons_self p' rest) hmod] at hm
        exact absurd hm (List.not_mem_nil m)
      · exact hrec.2 p' hmem m hm
    · rename_i pm hmod
      split at h
      · exact absurd h (by simp)
      · rename_i t1 hloop
        have h1 := replacedLoop_sound pm.path pm.goMod p.locallyReplaced t t1 hloop
        have hrec := ih (fun q hq => hwf q (List.mem_cons_of_mem p hq)) t1 t' h
        refine ⟨fun k v hv => hrec.1 k v (h1.1 k v hv), ?_⟩
        intro p' hp' m hm
        rcases List.mem_cons.mp hp' with hEq | hmem
        · subst hEq
          rcases h1.2 m hm with ⟨mm, pv, hl, hd⟩
          exact ⟨mm, pv, hrec.1 _ _ hl, hd⟩
        · exact hrec.2 p' hmem m hm


theorem replacedModulesLoop_err_shape (pkgs : List MainPkg) :
    ∀ (t : ModTable) (e : ModErr), replacedModulesLoop pkgs t = .error e →
      ∃ mp pv sp, e = .conflictingLocal mp pv sp := by
  induction pkgs with
  | nil =>
    intro t e h
    rw [replacedModulesLoop] at h
    exact absurd h (by simp)
  | cons p rest ih =>
    intro t e h
    rw [replacedModulesLoop] at h
    split at h
    · exact ih t e h
    · rename_i pm hmod
      split at h
      · rename_i hloop
        injection h with h
        rcases replacedLoop_err_shape pm.path pm.goMod p.locallyReplaced t _ hloop with
          ⟨mp, pv, hE⟩
        exact ⟨mp, pv, pm.path, by rw [← h, hE]⟩
      · rename_i t1 hloop
        exact ih t1 e h

/-- C9.  When two manifests rebind the same module path to two different
local directories, `localModules` fails with the
`two conflicting versions of module …` error — which carries the module
path, the provenance of the first binding and the module whose go.mod
supplied the second — and `dealWithDeps` propagates the error, so no
top-level manifest is produced.  `hwf` is the source invariant that a
package without a module contributes no locally-replaced modules. -/
theorem localModules_conflict (pkgs : List MainPkg) (go111 : String)
    (hwf : ∀ p ∈ pkgs, p.module = none → p.locallyReplaced = [])
    (hconf : ∃ p₁ ∈ pkgs, ∃ p₂ ∈ pkgs, ∃ m₁ ∈ p₁.locallyReplaced,
      ∃ m₂ ∈ p₂.locallyReplaced, m₁.path = m₂.path ∧ m₁.dir ≠ m₂.dir) :
    (∃ mp pv sp, localModules pkgs = .error (.conflictingLocal mp pv sp)) ∧
    (∃ mp pv sp, dealWithDeps go111 pkgs = .error (.conflictingLocal mp pv sp)) := by
  cases hloop : replacedModulesLoop pkgs (mainModulesLoop pkgs []) with
  | error e =>
    rcases replacedModulesLoop_err_shape pkgs _ e hloop with ⟨mp, pv, sp, hE⟩
    subst hE
    constructor
    · exact ⟨mp, pv, sp, by rw [localModules, hloop]⟩
    · refine ⟨mp, pv, sp, ?_⟩
      rw [dealWithDeps, localModules, hloop]
  | ok t' =>
    exfalso
    have hs := replacedModulesLoop_sound pkgs hwf _ t' hloop
    rcases hconf with ⟨p₁, hp₁, p₂, hp₂, m₁, hm₁, m₂, hm₂, hpath, hdir⟩
    rcases hs.2 p₁ hp₁ m₁ hm₁ with ⟨mm₁, pv₁, hl₁, hd₁⟩
    rcases hs.2 p₂ hp₂ m₂ hm₂ with ⟨mm₂, pv₂, hl₂, hd₂⟩
    rw [hpath] at hl₁
    rw [hl₁] at hl₂
    injection hl₂ with hl₂
    apply hdir
    rw [← hd₁, ← hd₂]
    rw [show mm₁ = mm₂ from congrArg Prod.fst hl₂]

/-- The two concrete conflicting packages for the C9 witness: `app1`
rebinds `example.com/dep` to `/src/dep-v1`, `app2` rebinds it to
`/src/dep-v2`. -/
def cexPkg1 : MainPkg :=
  { module := some ⟨"example.com/app1", "/src/app1", "/src/app1/go.mod"⟩
    locallyReplaced := [⟨"example.com/dep", "/src/dep-v1", "/src/dep-v1/go.mod"⟩]
    depModules := [] }

/-- See `cexPkg1`. -/
def cexPkg2 : MainPkg :=
  { module := some ⟨"example.com/app2", "/src/app2", "/src/app2/go.mod"⟩
    locallyReplaced := [⟨"example.com/dep", "/src/dep-v2", "/src/dep-v2/go.mod"⟩]
    depModules := [] }

/-- Witness for C9 at the two conflicting packages: the reconciler fails
with the fully concrete duplicate-local-definition error and no manifest
is produced. -/
theorem localModules_conflict_witness :
    localModules [cexPkg1, cexPkg2] = .error (.conflictingLocal "example.com/dep"
      (.fromGoMod "example.com/app1" "/src/app1/go.mod") "example.com/app2") ∧
    dealWithDeps "on" [cexPkg1, cexPkg2] = .error (.conflictingLocal "example.com/dep"
      (.fromGoMod "example.com/app1" "/src/app1/go.mod") "example.com/app2") := by
  have h := localModules_conflict [cexPkg1, cexPkg2] "on" (by decide)
    ⟨cexPkg1, by decide, cexPkg2, by decide,
     ⟨"example.com/dep", "/src/dep-v1", "/src/dep-v1/go.mod"⟩, by decide,
     ⟨"example.com/dep", "/src/dep-v2", "/src/dep-v2/go.mod"⟩, by decide,
     by decide, by decide⟩
  exact ⟨rfl, rfl⟩

/-! ### Theorems about the registry and the dispatcher -/

/-- C10.  `bbmain.Register(name, init, main)` panics iff `name` is already
registered; on success the new command is registered under `name` and every
other name resolves exactly as before. -/
theorem Register_panics_iff_and_preserves (reg : bbmain.Registry) (nm : String) (c : bbmain.BBCmd) :
    ((∃ e, bbmain.Register nm c reg = .error e) ↔ (reg.lookup nm).isSome) ∧
    (∀ reg', bbmain.Register nm c reg = .ok reg' →
      reg'.lookup nm = some c ∧ ∀ nm', nm' ≠ nm → reg'.lookup nm' = reg.lookup nm') := by
  constructor
  · constructor
    · rintro ⟨e, he⟩
      by_cases h : (reg.lookup nm).isSome
      · exact h
      · rw [bbmain.Register, if_neg h] at he; exact absurd he (by simp)
    · intro h
      exact ⟨_, by rw [bbmain.Register, if_pos h]⟩
  · intro reg' hok
    by_cases h : (reg.lookup nm).isSome
    · rw [bbmain.Register, if_pos h] at hok; exact absurd hok (by simp)
    · rw [bbmain.Register, if_neg h] at hok
      have hr : reg' = reg ++ [(nm, c)] := by injection hok with h'; exact h'.symm
      subst hr
      constructor
      · rw [lookup_append]
        have : reg.lookup nm = none := by
          cases hl : reg.lookup nm with
          | none => rfl
          | some v => rw [hl] at h; exact absurd rfl h
        rw [this]
        simp [List.lookup]
      · intro nm' hne
        rw [lookup_append]
        have hb : (nm' == nm) = false := by
          simp only [beq_eq_false_iff_ne, ne_eq]
          exact hne
        have : ([(nm, c)] : bbmain.Registry).lookup nm' = none := by
          simp [List.lookup, hb]
        rw [this]
        cases reg.lookup nm' <;> rfl

/-- Witness for C10 at a concrete registry: registering `cowsay` next to
`ls` succeeds, keeps `ls`, and re-registering `ls` panics. -/
theorem Register_panics_iff_and_preserves_witness :
    (bbmain.Register "cowsay" ⟨1, 1⟩ [("ls", ⟨0, 0⟩)] =
      .ok [("ls", ⟨0, 0⟩), ("cowsay", ⟨1, 1⟩)]) ∧
    ([("ls", ⟨0, 0⟩), ("cowsay", ⟨1, 1⟩)] : bbmain.Registry).lookup "ls" = some ⟨0, 0⟩ ∧
    (∃ e, bbmain.Register "ls" ⟨1, 1⟩ [("ls", ⟨0, 0⟩)] = .error e) := by
  refine ⟨rfl, ?_, ?_⟩
  · have h := (Register_panics_iff_and_preserves [("ls", ⟨0, 0⟩)] "cowsay" ⟨1, 1⟩).2
      [("ls", ⟨0, 0⟩), ("cowsay", ⟨1, 1⟩)] rfl
    have h2 := h.2 "ls" (by decide)
    rw [h2]
    decide
  · exact (Register_panics_iff_and_preserves [("ls", ⟨0, 0⟩)] "ls" ⟨1, 1⟩).1.2 (by decide)

/-- C6 counterexample.  In the shipped dispatcher (registry after `init()`:
`bbdiagnose` plus a default command), invoking `./bb foo` with `foo` not
registered ends in `log.Fatalf("Invalid busybox command: ...")` — a
non-zero exit that does NOT print the list of registered commands — not in
the `ErrNotRegistered` diagnostic that lists every registered name, as the
claim requires at this input. -/
theorem dispatcher_no_listing_counterexample :
    runDispatcher initRegistry initHasDefault ["./bb", "foo"] = .fatalInvalid ["foo"] ∧
    Outcome.fatalInvalid ["foo"] ≠ Outcome.notFoundDiag initRegistry := by
  decide

/-- C6 amended.  The claimed behaviour (retry with argv[1], then a
diagnostic listing every registered name and a non-zero exit) is the
behaviour of `run()` only when no default command is registered.  The
shipped dispatcher registers a default command whose `main` shifts argv and
re-enters `run()`: it retries every successive argument, and when none
matches it exits non-zero with "Invalid busybox command" and no listing. -/
theorem runDispatcher_amended (reg : List String) :
    (∀ args (h : args ≠ []),
      (∀ a ∈ args, baseName a ∉ reg) →
        runDispatcher reg true args = .fatalInvalid [args.getLast h]) ∧
    (∀ a rest, baseName a ∉ reg → rest ≠ [] →
        runDispatcher reg true (a :: rest) = runDispatcher reg true rest) ∧
    (∀ hasDefault a rest, baseName a ∈ reg →
        runDispatcher reg hasDefault (a :: rest) = .ran (baseName a) (a :: rest)) ∧
    (∀ a b rest, baseName a ∉ reg → baseName b ∈ reg →
        runDispatcher reg false (a :: b :: rest) = .ran (baseName b) (b :: rest)) ∧
    (∀ a b rest, baseName a ∉ reg → baseName b ∉ reg →
        runDispatcher reg false (a :: b :: rest) = .notFoundDiag reg) ∧
    (∀ a, baseName a ∉ reg →
        runDispatcher reg false [a] = .notFoundDiag reg) := by
  refine ⟨?_, ?_, ?_, ?_, ?_, ?_⟩
  · intro args
    induction args with
    | nil => intro h; exact absurd rfl h
    | cons a rest ih =>
      intro _ hall
      have ha := hall a (List.mem_cons_self a rest)
      cases rest with
      | nil => simp [runDispatcher, ha]
      | cons b rest' =>
        have hrec := ih (by simp) (fun x hx => hall x (List.mem_cons_of_mem a hx))
        rw [runDispatcher, if_neg (by simpa using ha), if_pos rfl]
        rw [hrec]
        symm
        rw [List.getLast_cons (show b :: rest' ≠ [] from by simp)]
  · intro a rest ha hrest
    cases rest with
    | nil => exact absurd rfl hrest
    | cons b rest' =>
      rw [runDispatcher, if_neg (by simpa using ha), if_pos rfl]
  · intro hasDefault a rest ha
    cases rest with
    | nil => rw [runDispatcher, if_pos (by simpa using ha)]
    | cons b rest' => rw [runDispatcher, if_pos (by simpa using ha)]
  · intro a b rest ha hb
    rw [runDispatcher, if_neg (by simpa using ha), if_neg (by simp),
      if_pos (by simpa using hb)]
  · intro a b rest ha hb
    rw [runDispatcher, if_neg (by simpa using ha), if_neg (by simp),
      if_neg (by simpa using hb)]
  · intro a ha
    rw [runDispatcher, if_neg (by simpa using ha), if_neg (by simp)]

/-- Witness for C6's amended theorem at concrete inputs. -/
theorem runDispatcher_amended_witness :
    runDispatcher ["ls"] true ["./bb", "foo", "bar"] = .fatalInvalid ["bar"] ∧
    runDispatcher ["ls"] true ["./bb", "ls"] = .ran "ls" ["ls"] ∧
    runDispatcher ["ls"] false ["./bb", "foo"] = .notFoundDiag ["ls"] := by
  refine ⟨?_, ?_, ?_⟩
  · have h := (runDispatcher_amended ["ls"]).1 ["./bb", "foo", "bar"] (by decide) (by decide)
    simpa using h
  · have h1 := (runDispatcher_amended ["ls"]).2.1 "./bb" ["ls"] (by decide) (by decide)
    have h2 := (runDispatcher_amended ["ls"]).2.2.1 true "ls" [] (by decide)
    rw [h1, h2]
    decide
  · have h := (runDispatcher_amended ["ls"]).2.2.2.2.1 "./bb" "foo" [] (by decide) (by decide)
    exact h

/-! ## findpkg: glob resolution (src/pkg/bb/findpkg/bb.go)

`ResolveGlobs` shells out to `packages.Load` (`go list`) and queries the
filesystem (`filepath.Glob`, `os.Stat`, `filepath.Abs`) and `path.Match`.
These externals are modelled as a total oracle `FsEnv`; the control flow
around them is translated literally from the source. -/

/-- Byte-lexicographic comparison of character lists; `a ≤ b` as Go compares
strings (UTF-8 code points; structurally recursive so it kernel-evaluates,
unlike core `String.ltb`). -/
def charsLe : List Char → List Char → Bool
  | [], _ => true
  | _ :: _, [] => false
  | a :: as, b :: bs =>
    if a.toNat < b.toNat then true
    else if b.toNat < a.toNat then false
    else charsLe as bs

/-- Go's `s1 <= s2` on strings. -/
def strLe (a b : String) : Bool := charsLe a.data b.data

/-- Insert into a `strLe`-sorted list, keeping it sorted. -/
def strInsert (a : String) : List String → List String
  | [] => [a]
  | b :: l => if strLe a b then a :: b :: l else b :: strInsert a l

/-- `sort.Strings` (findpkg/bb.go:507). Under the total order `strLe`, every
comparison sort of the same input list produces the same output list (equal
keys are equal strings), so insertion sort models it exactly. -/
def sortStrings : List String → List String
  | [] => []
  | a :: l => strInsert a (sortStrings l)

/-- A `packages.Package` as loaded with `NeedName | NeedFiles`
(findpkg/bb.go:351-359 `lookupPkgNameAndFiles`): the package path, its Go
files, the files ignored by build constraints, and its load errors. -/
structure GoListPkg where
  pkgPath : String
  goFiles : List String
  ignoredFiles : List String
  errs : List String
deriving DecidableEq, Repr

/-- Oracle for the externals of the resolver: `filepath.Glob`,
`os.Stat(..).IsDir()`, `filepath.Abs`, one `packages.Load` pattern's result
(`pkgsOf`; the load's working directory only selects the module context,
which this oracle fixes), and `path.Match`. -/
structure FsEnv where
  glob : String → List String
  isDir : String → Bool
  abs : String → String
  pkgsOf : String → List GoListPkg
  pathMatch : String → String → Bool

/-- One `packages.Load` query deduplicates: a package selected by several of
the query's patterns is reported once. Keep the first occurrence of each
package path (`seen` is the accumulator of paths already emitted). -/
def dedupByPath : List String → List GoListPkg → List GoListPkg
  | _, [] => []
  | seen, p :: rest =>
    if seen.contains p.pkgPath then dedupByPath seen rest
    else p :: dedupByPath (p.pkgPath :: seen) rest

/-- findpkg/bb.go:351-359 `lookupPkgNameAndFiles`: a single `packages.Load`
call over `patterns`. -/
def lookupPkgNameAndFiles (env : FsEnv) (patterns : List String) : List GoListPkg :=
  dedupByPath [] (patterns.flatMap env.pkgsOf)

/-- findpkg/bb.go:310-334 `checkEligibility` loop: packages whose Go files
are all excluded by build constraints are skipped (only logged); packages
with errors contribute their messages to the accumulated error. Returns
(kept packages, collected error messages) in iteration order. -/
def checkEligibilityGo : List GoListPkg → List GoListPkg × List String
  | [] => ([], [])
  | p :: rest =>
    let r := checkEligibilityGo rest
    if p.goFiles.isEmpty && !p.ignoredFiles.isEmpty then r
    else if p.errs.isEmpty then (p :: r.1, r.2)
    else (r.1, p.errs.map (fun e => "package " ++ p.pkgPath ++ ": " ++ e) ++ r.2)

/-- `multierror` aggregation, abstracted to joining the messages. -/
def joinSemis : List String → String
  | [] => ""
  | [e] => e
  | e :: rest => e ++ "; " ++ joinSemis rest

/-- findpkg/bb.go:310-334 `checkEligibility`: error if any message was
collected, else the kept packages. -/
def checkEligibility (pkgs : List GoListPkg) : Except String (List GoListPkg) :=
  let r := checkEligibilityGo pkgs
  if r.2.isEmpty then .ok r.1 else .error (joinSemis r.2)

/-- `strings.Join(l, "/")`. -/
def joinSlash (l : List String) : String :=
  ⟨(List.intersperse ['/'] (l.map String.data)).flatten⟩

/-- `filepath.Dir`: everything before the last slash; `"."` when there is no
slash, `"/"` at the root. (`filepath.Clean` of the prefix is not modelled;
the paths in scope are already clean.) -/
def dirName (p : String) : String :=
  match (splitSlash p.data).dropLast with
  | [] => "."
  | [[]] => "/"
  | l => joinSlash (l.map fun c => ⟨c⟩)

/-- findpkg/bb.go:336-349 `excludePaths`: keep the paths that are not in the
exclusion set (a hash set in the source, list membership here). -/
def excludePaths (paths exclusions : List String) : List String :=
  paths.filter fun p => !(exclusions.contains p)

/-- findpkg/bb.go:256-308 `filterDirectoryPaths`: keep the glob matches that
are directories and absolutise them; absolutise the excludes (without any
eligibility check); batch-load the directories' packages (`batchFSPackages`
only splits one load into per-module loads rooted at each module directory,
which the `pkgsOf` oracle already fixes, so it does not change the resulting
package list); run the eligibility check; take each eligible package's first
Go file's directory; finally drop the excludes. -/
def filterDirectoryPaths (env : FsEnv) (includes excludes : List String) :
    Except String (List String) :=
  match checkEligibility
      (lookupPkgNameAndFiles env ((includes.filter env.isDir).map env.abs)) with
  | .error e => .error e
  | .ok eligiblePkgs =>
      .ok (excludePaths (eligiblePkgs.map fun p => dirName (p.goFiles.headD ""))
        (excludes.map env.abs))

/-- Two consecutive backslashes somewhere in the list
(`strings.Contains(s, backslash-backslash)`). -/
def hasDoubleBackslash : List Char → Bool
  | [] => false
  | [_] => false
  | a :: b :: rest => (a = '\\' && b = '\\') || hasDoubleBackslash (b :: rest)

/-- findpkg/bb.go:361-363 `couldBeGlob`: contains `*`, `?` or `[`, or a
double backslash. -/
def couldBeGlob (s : String) : Bool :=
  s.data.any (fun c => c = '*' || c = '?' || c = '[') ||
    hasDoubleBackslash s.data

/-- findpkg/bb.go:372-378: the index of the first glob component (0 when none;
the caller guarantees one exists). -/
def firstGlobIdx (elems : List String) : Nat :=
  match elems.findIdx? couldBeGlob with
  | some i => i
  | none => 0

/-- findpkg/bb.go:369-397 `lookupPkgsWithGlob`: split the pattern on `/`,
replace everything from the first glob component on by `...`, load that
prefix, and keep the packages whose path matches the whole pattern
(`path.Match`, the `matches` oracle; its error return concerns malformed
patterns only and is not modelled). -/
def lookupPkgsWithGlob (env : FsEnv) (pattern : String) : List GoListPkg :=
  let elems := pathComponents pattern
  let nonGlobPath := joinSlash (elems.take (firstGlobIdx elems) ++ ["..."])
  (lookupPkgNameAndFiles env [nonGlobPath]).filter
    fun p => env.pathMatch pattern p.pkgPath

/-- The loop of findpkg/bb.go:408-422: glob patterns are looked up one by
one (their packages come first, in pattern order) while non-glob patterns
are collected for one batched query. Returns (glob packages, batched
patterns). -/
def splitGlobPatterns (env : FsEnv) : List String → List GoListPkg × List String
  | [] => ([], [])
  | pattern :: rest =>
    let r := splitGlobPatterns env rest
    if couldBeGlob pattern then (lookupPkgsWithGlob env pattern ++ r.1, r.2)
    else (r.1, pattern :: r.2)

/-- findpkg/bb.go:399-438 `lookupCompilablePkgsWithGlob`: glob lookups
followed by the batched lookup (skipped when no non-glob pattern exists),
then the eligibility check, then the package paths. -/
def lookupCompilablePkgsWithGlob (env : FsEnv) (patterns : List String) :
    Except String (List String) :=
  match checkEligibility ((splitGlobPatterns env patterns).1 ++
      (if (splitGlobPatterns env patterns).2.isEmpty then []
       else lookupPkgNameAndFiles env (splitGlobPatterns env patterns).2)) with
  | .error e => .error e
  | .ok eligiblePkgs => .ok (eligiblePkgs.map (·.pkgPath))

/-- findpkg/bb.go:440-452 `filterGoPaths`: resolve the include and exclude
package-path patterns the same way, then subtract. -/
def filterGoPaths (env : FsEnv) (gopathIncludes gopathExcludes : List String) :
    Except String (List String) :=
  match lookupCompilablePkgsWithGlob env gopathIncludes with
  | .error e => .error e
  | .ok goInc =>
    match lookupCompilablePkgsWithGlob env gopathExcludes with
    | .error e => .error e
    | .ok goExc => .ok (excludePaths goInc goExc)

/-- findpkg/bb.go:453 `errNoMatch`. -/
def errNoMatch : String := "no Go commands match the given patterns"

/-- The four buckets collected by the classification loop at
findpkg/bb.go:469-487. -/
structure Classified where
  dirIncludes : List String
  dirExcludes : List String
  gopathIncludes : List String
  gopathExcludes : List String
deriving DecidableEq, Repr

/-- `strings.HasPrefix(pattern, "-")` followed by `pattern = pattern[1:]`
(findpkg/bb.go:474-477). -/
def stripDashIf (pattern : String) : String :=
  if pattern.data.headD ' ' = '-' then ⟨pattern.data.tail⟩ else pattern

/-- One iteration of the classification loop (findpkg/bb.go:473-487): a
leading `-` marks an exclude and is stripped; a pattern with filesystem glob
matches contributes all its matches to a dir bucket, otherwise the pattern
itself goes to a gopath bucket. -/
def classifyStep (env : FsEnv) (pattern : String) (c : Classified) : Classified :=
  if (env.glob (stripDashIf pattern)).isEmpty then
    if pattern.data.headD ' ' = '-' then
      { c with gopathExcludes := stripDashIf pattern :: c.gopathExcludes }
    else { c with gopathIncludes := stripDashIf pattern :: c.gopathIncludes }
  else
    if pattern.data.headD ' ' = '-' then
      { c with dirExcludes := env.glob (stripDashIf pattern) ++ c.dirExcludes }
    else { c with dirIncludes := env.glob (stripDashIf pattern) ++ c.dirIncludes }

/-- The classification loop: right fold with prepends produces the buckets in
the same order as the source's forward loop with appends. -/
def classify (env : FsEnv) : List String → Classified
  | [] => ⟨[], [], [], []⟩
  | pattern :: rest => classifyStep env pattern (classify env rest)

/-- findpkg/bb.go:489-502: the resolution part of `ResolveGlobs` before the
emptiness test and the sort: directory results first, gopath results after. -/
def resolveCore (env : FsEnv) (patterns : List String) : Except String (List String) :=
  match filterDirectoryPaths env (classify env patterns).dirIncludes
      (classify env patterns).dirExcludes with
  | .error e => .error e
  | .ok directories =>
    match filterGoPaths env (classify env patterns).gopathIncludes
        (classify env patterns).gopathExcludes with
    | .error e => .error e
    | .ok gopaths => .ok (directories ++ gopaths)

/-- findpkg/bb.go:467-508 `ResolveGlobs`: classify, resolve, `errNoMatch` on
an empty result, `sort.Strings` otherwise. -/
def ResolveGlobs (env : FsEnv) (patterns : List String) : Except String (List String) :=
  match resolveCore env patterns with
  | .error e => .error e
  | .ok result =>
      if result.isEmpty then .error errNoMatch else .ok (sortStrings result)

/-- The one package of the C7 counterexample environment. -/
def barPkg : GoListPkg := ⟨"x.com/a/bar", ["x.com/a/bar/main.go"], [], []⟩

/-- Environment in which the package `x.com/a/bar` exists (reported both for
the glob-expanded query `x.com/a/...` and for the literal query
`x.com/a/bar`), nothing is a filesystem path, and `path.Match` matches the
package against the glob `x.com/a/b*`. -/
def env7 : FsEnv where
  glob := fun _ => []
  isDir := fun _ => false
  abs := fun s => s
  pkgsOf := fun pat =>
    if pat = "x.com/a/..." || pat = "x.com/a/bar" then [barPkg] else []
  pathMatch := fun pat p => pat = "x.com/a/b*" && p = "x.com/a/bar"

/-- Environment in which no pattern resolves to anything. -/
def envEmpty : FsEnv where
  glob := fun _ => []
  isDir := fun _ => false
  abs := fun s => s
  pkgsOf := fun _ => []
  pathMatch := fun _ _ => false

/-- C7's deduplication part fails: a glob pattern and a literal pattern that
select the same package produce it twice. The glob is resolved by its own
`packages.Load` call and the literal by the batched call, and nothing
deduplicates across the two result lists, nor does the final
`sort.Strings`. -/
theorem resolveGlobs_duplicate_counterexample :
    ResolveGlobs env7 ["x.com/a/b*", "x.com/a/bar"] =
      .ok ["x.com/a/bar", "x.com/a/bar"] ∧
    ¬ (["x.com/a/bar", "x.com/a/bar"] : List String).Nodup :=
  ⟨rfl, by decide⟩

theorem charsLe_total (as bs : List Char) :
    charsLe as bs = true ∨ charsLe bs as = true := by
  induction as generalizing bs with
  | nil => left; rfl
  | cons a as ih =>
    cases bs with
    | nil => right; rfl
    | cons b bs =>
      rcases Nat.lt_trichotomy a.toNat b.toNat with h | h | h
      · left; simp [charsLe, h]
      · have h1 : ¬ a.toNat < b.toNat := by omega
        have h2 : ¬ b.toNat < a.toNat := by omega
        rcases ih bs with hc | hc
        · left; simp [charsLe, h1, h2, hc]
        · right; simp [charsLe, h1, h2, hc]
      · right; simp [charsLe, h]

theorem strLe_total (a b : String) : strLe a b = true ∨ strLe b a = true :=
  charsLe_total a.data b.data

theorem charsLe_trans (as : List Char) : ∀ bs cs,
    charsLe as bs = true → charsLe bs cs = true → charsLe as cs = true := by
  induction as with
  | nil => intro bs cs _ _; rfl
  | cons a as ih =>
    intro bs cs h1 h2
    cases bs with
    | nil => simp [charsLe] at h1
    | cons b bs =>
      cases cs with
      | nil => simp [charsLe] at h2
      | cons c cs =>
        by_cases hab : a.toNat < b.toNat
        · by_cases hbc : b.toNat < c.toNat
          · have hac : a.toNat < c.toNat := by omega
            simp [charsLe, hac]
          · by_cases hcb : c.toNat < b.toNat
            · simp [charsLe, hbc, hcb] at h2
            · have hac : a.toNat < c.toNat := by omega
              simp [charsLe, hac]
        · by_cases hba : b.toNat < a.toNat
          · simp [charsLe, hab, hba] at h1
          · simp [charsLe, hab, hba] at h1
            by_cases hbc : b.toNat < c.toNat
            · have hac : a.toNat < c.toNat := by omega
              simp [charsLe, hac]
            · by_cases hcb : c.toNat < b.toNat
              · simp [charsLe, hbc, hcb] at h2
              · simp [charsLe, hbc, hcb] at h2
                have h3 := ih bs cs h1 h2
                have hac : ¬ a.toNat < c.toNat := by omega
                have hca : ¬ c.toNat < a.toNat := by omega
                simp [charsLe, hac, hca, h3]

theorem strLe_trans (a b c : String) :
    strLe a b = true → strLe b c = true → strLe a c = true :=
  charsLe_trans a.data b.data c.data

/-- What `sort.Strings` guarantees: each element `strLe` every later one. -/
def StrSorted (l : List String) : Prop :=
  List.Pairwise (fun a b => strLe a b = true) l

theorem mem_strInsert (x a : String) (l : List String) :
    x ∈ strInsert a l ↔ x = a ∨ x ∈ l := by
  induction l with
  | nil => simp [strInsert]
  | cons b l ih =>
    show x ∈ (if strLe a b then a :: b :: l else b :: strInsert a l) ↔ _
    by_cases h : strLe a b
    · simp [h, List.mem_cons]
    · simp only [if_neg h, List.mem_cons, ih]
      tauto

theorem strInsert_sorted (a : String) (l : List String) (h : StrSorted l) :
    StrSorted (strInsert a l) := by
  induction l with
  | nil => simp [strInsert, StrSorted]
  | cons b l ih =>
    rw [StrSorted, List.pairwise_cons] at h
    show StrSorted (if strLe a b then a :: b :: l else b :: strInsert a l)
    by_cases hab : strLe a b
    · rw [if_pos hab, StrSorted, List.pairwise_cons]
      refine ⟨?_, List.pairwise_cons.mpr h⟩
      intro x hx
      rcases List.mem_cons.mp hx with hx | hx
      · exact hx ▸ hab
      · exact strLe_trans a b x hab (h.1 x hx)
    · rw [if_neg hab, StrSorted, List.pairwise_cons]
      refine ⟨?_, ih h.2⟩
      intro x hx
      rcases (mem_strInsert x a l).mp hx with hx | hx
      · subst hx
        rcases strLe_total x b with hc | hc
        · exact absurd hc hab
        · exact hc
      · exact h.1 x hx

theorem strInsert_ne_nil (a : String) (l : List String) : strInsert a l ≠ [] := by
  cases l with
  | nil => simp [strInsert]
  | cons b l =>
    show (if strLe a b then a :: b :: l else b :: strInsert a l) ≠ []
    split <;> simp

theorem sortStrings_sorted (l : List String) : StrSorted (sortStrings l) := by
  induction l with
  | nil => simp [sortStrings, StrSorted]
  | cons a l ih => exact strInsert_sorted a _ ih

theorem mem_sortStrings (x : String) (l : List String) :
    x ∈ sortStrings l ↔ x ∈ l := by
  induction l with
  | nil => simp [sortStrings]
  | cons a l ih => simp [sortStrings, mem_strInsert, ih, List.mem_cons]

theorem sortStrings_ne_nil (l : List String) (h : l ≠ []) : sortStrings l ≠ [] := by
  cases l with
  | nil => exact absurd rfl h
  | cons a l => exact strInsert_ne_nil a _

/-- **C7.** Corrected: every list `ResolveGlobs` returns is sorted and
nonempty, and — whenever the underlying resolution itself succeeds — the
distinct no-match error is returned exactly when the resolved list (includes
minus excludes) is empty. The duplicate-freedom part of the claim fails:
see `resolveGlobs_duplicate_counterexample`. -/
theorem resolveGlobs_sorted_and_noMatch (env : FsEnv) (patterns : List String) :
    (∀ res, ResolveGlobs env patterns = .ok res → StrSorted res ∧ res ≠ []) ∧
    (∀ core, resolveCore env patterns = .ok core →
      (ResolveGlobs env patterns = .error errNoMatch ↔ core = [])) := by
  constructor
  · intro res h
    rw [ResolveGlobs] at h
    cases hc : resolveCore env patterns with
    | error e => rw [hc] at h; exact absurd h (by simp)
    | ok result =>
      rw [hc] at h
      dsimp only [] at h
      by_cases he : result.isEmpty
      · rw [if_pos he] at h
        exact absurd h (by simp)
      · rw [if_neg he] at h
        injection h with h
        rw [← h]
        refine ⟨sortStrings_sorted result, sortStrings_ne_nil result ?_⟩
        intro hnil
        exact he (by simp [hnil])
  · intro core hc
    rw [ResolveGlobs, hc]
    dsimp only []
    constructor
    · intro h
      by_cases he : core.isEmpty
      · simpa using he
      · rw [if_neg he] at h
        exact absurd h (by simp)
    · intro h
      subst h
      rfl

/-- Witness for C7's amended theorem: the counterexample run's output is
sorted and nonempty, and a run that resolves to the empty set returns
exactly the no-match error. -/
theorem resolveGlobs_sorted_and_noMatch_witness :
    (StrSorted ["x.com/a/bar", "x.com/a/bar"] ∧
      (["x.com/a/bar", "x.com/a/bar"] : List String) ≠ []) ∧
    (ResolveGlobs envEmpty ["nope"] = .error errNoMatch ↔ ([] : List String) = []) :=
  ⟨(resolveGlobs_sorted_and_noMatch env7 ["x.com/a/b*", "x.com/a/bar"]).1
      ["x.com/a/bar", "x.com/a/bar"] rfl,
   (resolveGlobs_sorted_and_noMatch envEmpty ["nope"]).2 [] rfl⟩

theorem stripDashIf_of_head (p : String) (hp : p.data.headD ' ' ≠ '-') :
    stripDashIf p = p := by
  rw [stripDashIf, if_neg hp]

theorem classifyStep_include (env : FsEnv) (p : String) (c : Classified)
    (hp : p.data.headD ' ' ≠ '-') :
    classifyStep env p c =
      if (env.glob p).isEmpty then { c with gopathIncludes := p :: c.gopathIncludes }
      else { c with dirIncludes := env.glob p ++ c.dirIncludes } := by
  rw [classifyStep, stripDashIf_of_head p hp, if_neg hp, if_neg hp]

theorem classifyStep_dashed (env : FsEnv) (e : String) (c : Classified) :
    classifyStep env ("-" ++ e) c =
      if (env.glob e).isEmpty then { c with gopathExcludes := e :: c.gopathExcludes }
      else { c with dirExcludes := env.glob e ++ c.dirExcludes } := by
  have hd : ("-" ++ e).data = '-' :: e.data := by rw [data_append]; rfl
  have hh : ("-" ++ e).data.headD ' ' = '-' := by rw [hd]; rfl
  have hs : stripDashIf ("-" ++ e) = e := by
    rw [stripDashIf, if_pos hh, hd]
    rfl
  rw [classifyStep, hs, if_pos hh, if_pos hh]

theorem classifyStep_appendC (env : FsEnv) (p : String) (c d : Classified) :
    classifyStep env p
      ⟨c.dirIncludes ++ d.dirIncludes, c.dirExcludes ++ d.dirExcludes,
       c.gopathIncludes ++ d.gopathIncludes, c.gopathExcludes ++ d.gopathExcludes⟩ =
      ⟨(classifyStep env p c).dirIncludes ++ d.dirIncludes,
       (classifyStep env p c).dirExcludes ++ d.dirExcludes,
       (classifyStep env p c).gopathIncludes ++ d.gopathIncludes,
       (classifyStep env p c).gopathExcludes ++ d.gopathExcludes⟩ := by
  rw [classifyStep, classifyStep]
  by_cases h1 : (env.glob (stripDashIf p)).isEmpty
  · rw [if_pos h1, if_pos h1]
    by_cases h2 : p.data.headD ' ' = '-'
    · rw [if_pos h2, if_pos h2]
      simp [List.append_assoc]
    · rw [if_neg h2, if_neg h2]
      simp [List.append_assoc]
  · rw [if_neg h1, if_neg h1]
    by_cases h2 : p.data.headD ' ' = '-'
    · rw [if_pos h2, if_pos h2]
      simp [List.append_assoc]
    · rw [if_neg h2, if_neg h2]
      simp [List.append_assoc]

theorem classify_append (env : FsEnv) (xs ys : List String) :
    classify env (xs ++ ys) =
      ⟨(classify env xs).dirIncludes ++ (classify env ys).dirIncludes,
       (classify env xs).dirExcludes ++ (classify env ys).dirExcludes,
       (classify env xs).gopathIncludes ++ (classify env ys).gopathIncludes,
       (classify env xs).gopathExcludes ++ (classify env ys).gopathExcludes⟩ := by
  induction xs with
  | nil => simp [classify]
  | cons p xs ih =>
    rw [List.cons_append,
      show classify env (p :: (xs ++ ys)) = classifyStep env p (classify env (xs ++ ys))
        from rfl,
      ih,
      show classify env (p :: xs) = classifyStep env p (classify env xs) from rfl]
    exact classifyStep_appendC env p (classify env xs) (classify env ys)

theorem classify_include (env : FsEnv) (I : List String)
    (hI : ∀ p ∈ I, p.data.headD ' ' ≠ '-') :
    (classify env I).dirExcludes = [] ∧ (classify env I).gopathExcludes = [] := by
  induction I with
  | nil => exact ⟨rfl, rfl⟩
  | cons p I ih =>
    have hp := hI p (List.mem_cons_self p I)
    have ih' := ih fun q hq => hI q (List.mem_cons_of_mem p hq)
    rw [show classify env (p :: I) = classifyStep env p (classify env I) from rfl,
      classifyStep_include env p _ hp]
    by_cases hg : (env.glob p).isEmpty
    · rw [if_pos hg]
      exact ⟨ih'.1, ih'.2⟩
    · rw [if_neg hg]
      exact ⟨ih'.1, ih'.2⟩

theorem classify_dashed (env : FsEnv) (E : List String)
    (hE : ∀ e ∈ E, e.data.headD ' ' ≠ '-') :
    classify env (E.map (fun e => "-" ++ e)) =
      ⟨[], (classify env E).dirIncludes, [], (classify env E).gopathIncludes⟩ := by
  induction E with
  | nil => rfl
  | cons e E ih =>
    have he := hE e (List.mem_cons_self e E)
    have ih' := ih fun q hq => hE q (List.mem_cons_of_mem e hq)
    rw [List.map_cons,
      show classify env (("-" ++ e) :: E.map (fun e => "-" ++ e)) =
        classifyStep env ("-" ++ e) (classify env (E.map (fun e => "-" ++ e))) from rfl,
      ih', classifyStep_dashed,
      show classify env (e :: E) = classifyStep env e (classify env E) from rfl,
      classifyStep_include env e _ he]
    by_cases hg : (env.glob e).isEmpty
    · rw [if_pos hg, if_pos hg]
    · rw [if_neg hg, if_neg hg]

theorem excludePaths_nil (paths : List String) : excludePaths paths [] = paths := by
  simp [excludePaths]

theorem mem_excludePaths (x : String) (paths exclusions : List String) :
    x ∈ excludePaths paths exclusions ↔ x ∈ paths ∧ x ∉ exclusions := by
  simp [excludePaths, List.mem_filter]

theorem filterDirectoryPaths_excl (env : FsEnv) (inc exc pI : List String)
    (h : filterDirectoryPaths env inc [] = .ok pI) :
    filterDirectoryPaths env inc exc = .ok (excludePaths pI (exc.map env.abs)) := by
  rw [filterDirectoryPaths] at h ⊢
  cases hce : checkEligibility
      (lookupPkgNameAndFiles env ((inc.filter env.isDir).map env.abs)) with
  | error e =>
    rw [hce] at h
    dsimp only [] at h
    exact absurd h (by simp)
  | ok pkgs =>
    rw [hce] at h
    dsimp only [] at h
    injection h with h
    rw [List.map_nil, excludePaths_nil] at h
    dsimp only []
    rw [h]

theorem filterGoPaths_nil_r (env : FsEnv) (inc x : List String) :
    filterGoPaths env inc [] = .ok x ↔
      lookupCompilablePkgsWithGlob env inc = .ok x := by
  rw [filterGoPaths]
  cases hl : lookupCompilablePkgsWithGlob env inc with
  | error e => simp
  | ok a =>
    dsimp only []
    rw [show lookupCompilablePkgsWithGlob env ([] : List String) = .ok [] from rfl]
    dsimp only []
    rw [excludePaths_nil]

theorem filterGoPaths_excl (env : FsEnv) (inc exc gI gE : List String)
    (h1 : filterGoPaths env inc [] = .ok gI)
    (h2 : filterGoPaths env exc [] = .ok gE) :
    filterGoPaths env inc exc = .ok (excludePaths gI gE) := by
  have h1' := (filterGoPaths_nil_r env inc gI).mp h1
  have h2' := (filterGoPaths_nil_r env exc gE).mp h2
  rw [filterGoPaths, h1', h2']

/-- **C8.** Resolving includes `I` together with dash-prefixed excludes `E`
yields exactly the set difference resolve(I) minus resolve(E), with the
exclusion patterns classified through the same pipeline as includes.
Hypotheses: no pattern of `I` or `E` itself starts with `-` (else the dashed
form of `E` would strip the wrong character), and the oracle answers are
consistent across the two runs: a directory result of `I` is among the
absolutised dir matches of `E` exactly when it is a directory result of
`E` (dir exclusion skips the eligibility check but both name the same
directory), and the directory-path and package-path namespaces do not
overlap. -/
theorem resolveGlobs_exclusion (env : FsEnv) (I E : List String)
    (hI : ∀ p ∈ I, p.data.headD ' ' ≠ '-')
    (hE : ∀ e ∈ E, e.data.headD ' ' ≠ '-')
    (pI pE gI gE : List String)
    (h1 : filterDirectoryPaths env (classify env I).dirIncludes [] = .ok pI)
    (h2 : filterDirectoryPaths env (classify env E).dirIncludes [] = .ok pE)
    (h3 : filterGoPaths env (classify env I).gopathIncludes [] = .ok gI)
    (h4 : filterGoPaths env (classify env E).gopathIncludes [] = .ok gE)
    (hc1 : ∀ x ∈ pI, x ∈ ((classify env E).dirIncludes).map env.abs ↔ x ∈ pE)
    (hc2 : ∀ x ∈ pI, x ∉ gE)
    (hc3 : ∀ x ∈ gI, x ∉ pE ∧ x ∉ ((classify env E).dirIncludes).map env.abs) :
    resolveCore env I = .ok (pI ++ gI) ∧
    resolveCore env E = .ok (pE ++ gE) ∧
    ∃ core, resolveCore env (I ++ E.map (fun e => "-" ++ e)) = .ok core ∧
      core.toFinset = (pI ++ gI).toFinset \ (pE ++ gE).toFinset ∧
      ∀ res, ResolveGlobs env (I ++ E.map (fun e => "-" ++ e)) = .ok res →
        res.toFinset = (pI ++ gI).toFinset \ (pE ++ gE).toFinset := by
  obtain ⟨hIdE, hIgE⟩ := classify_include env I hI
  obtain ⟨hEdE, hEgE⟩ := classify_include env E hE
  have h2' : filterDirectoryPaths env (classify env E).dirIncludes
      (classify env E).dirExcludes = .ok pE := by rw [hEdE]; exact h2
  have h4' : filterGoPaths env (classify env E).gopathIncludes
      (classify env E).gopathExcludes = .ok gE := by rw [hEgE]; exact h4
  have hI_core : resolveCore env I = .ok (pI ++ gI) := by
    rw [resolveCore, hIdE, hIgE, h1]
    dsimp only []
    rw [h3]
  have hE_core : resolveCore env E = .ok (pE ++ gE) := by
    rw [resolveCore, h2']
    dsimp only []
    rw [h4']
  have hcls : classify env (I ++ E.map (fun e => "-" ++ e)) =
      ⟨(classify env I).dirIncludes, (classify env E).dirIncludes,
       (classify env I).gopathIncludes, (classify env E).gopathIncludes⟩ := by
    rw [classify_append, classify_dashed env E hE, hIdE, hIgE]
    simp
  have hcomb_dirs := filterDirectoryPaths_excl env (classify env I).dirIncludes
    ((classify env E).dirIncludes) pI h1
  have hcomb_gop := filterGoPaths_excl env (classify env I).gopathIncludes
    ((classify env E).gopathIncludes) gI gE h3 h4
  have hcomb : resolveCore env (I ++ E.map (fun e => "-" ++ e)) =
      .ok (excludePaths pI (((classify env E).dirIncludes).map env.abs) ++
        excludePaths gI gE) := by
    rw [resolveCore, hcls]
    dsimp only []
    rw [hcomb_dirs]
    dsimp only []
    rw [hcomb_gop]
  have hset : (excludePaths pI (((classify env E).dirIncludes).map env.abs) ++
        excludePaths gI gE).toFinset =
      (pI ++ gI).toFinset \ (pE ++ gE).toFinset := by
    ext x
    simp only [List.mem_toFinset, Finset.mem_sdiff, List.mem_append, mem_excludePaths]
    constructor
    · rintro (⟨hxp, hxm⟩ | ⟨hxg, hxe⟩)
      · refine ⟨Or.inl hxp, ?_⟩
        rintro (hpe | hge)
        · exact hxm ((hc1 x hxp).mpr hpe)
        · exact hc2 x hxp hge
      · refine ⟨Or.inr hxg, ?_⟩
        rintro (hpe | hge)
        · exact (hc3 x hxg).1 hpe
        · exact hxe hge
    · rintro ⟨hxi | hxi, hnot⟩
      · exact Or.inl ⟨hxi, fun hm => hnot (Or.inl ((hc1 x hxi).mp hm))⟩
      · exact Or.inr ⟨hxi, fun hge => hnot (Or.inr hge)⟩
  refine ⟨hI_core, hE_core, _, hcomb, hset, ?_⟩
  intro res hres
  rw [ResolveGlobs, hcomb] at hres
  dsimp only [] at hres
  by_cases he : (excludePaths pI (((classify env E).dirIncludes).map env.abs) ++
      excludePaths gI gE).isEmpty
  · rw [if_pos he] at hres
    exact absurd hres (by simp)
  · rw [if_neg he] at hres
    injection hres with hres
    rw [← hres, ← hset]
    ext x
    simp [mem_sortStrings]

/-- The four packages of the C8 witness environment. -/
def aPkg8 : GoListPkg := ⟨"m.com/a", ["/w/a/main.go"], [], []⟩

def bPkg8 : GoListPkg := ⟨"m.com/b", ["/w/b/main.go"], [], []⟩

def xPkg8 : GoListPkg := ⟨"m.com/x", ["/w/x/main.go"], [], []⟩

def yPkg8 : GoListPkg := ⟨"m.com/y", ["/w/y/main.go"], [], []⟩

/-- C8 witness environment: two command directories `/w/a`, `/w/b` and two
package paths `m.com/x`, `m.com/y`. -/
def env8 : FsEnv where
  glob := fun s => if s = "/w/a" then ["/w/a"] else if s = "/w/b" then ["/w/b"] else []
  isDir := fun s => s = "/w/a" || s = "/w/b"
  abs := fun s => s
  pkgsOf := fun pat =>
    if pat = "/w/a" then [aPkg8]
    else if pat = "/w/b" then [bPkg8]
    else if pat = "m.com/x" then [xPkg8]
    else if pat = "m.com/y" then [yPkg8]
    else []
  pathMatch := fun _ _ => false

/-- Witness for C8 at a concrete environment: including both directories and
both packages while excluding `/w/b` and `m.com/y` resolves to exactly the
set difference. -/
theorem resolveGlobs_exclusion_witness :
    (["/w/a", "m.com/x"] : List String).toFinset =
      (["/w/a", "/w/b", "m.com/x", "m.com/y"] : List String).toFinset \
        (["/w/b", "m.com/y"] : List String).toFinset := by
  obtain ⟨-, -, core, -, -, hres⟩ :=
    resolveGlobs_exclusion env8 ["/w/a", "/w/b", "m.com/x", "m.com/y"] ["/w/b", "m.com/y"]
      (by decide) (by decide) ["/w/a", "/w/b"] ["/w/b"] ["m.com/x", "m.com/y"] ["m.com/y"]
      rfl rfl rfl rfl (by decide) (by decide) (by decide)
  exact hres ["/w/a", "m.com/x"] rfl

end GoBusybox
